import Mathlib

/-!
# Verification of the AutoAssist ticket-portal service layer

Shallow embedding, in Lean 4, of the parts of the AutoAssist support-portal
code base (Flask + MongoDB) that the specification's claims are about:

* `utils/cache.py` — the in-memory TTL cache and the sliding-window rate
  limiter (`cache_get`/`cache_set`/`cache_delete`, `rate_limit_check`);
* `middleware/session_manager.py` — `refresh_session` and `is_authenticated`;
* `routes/webhook_routes.py` — `strip_email_quotes` and the
  `/api/webhook/reply` handler;
* `routes/attachment_routes.py` — the attachment download/preview handlers;
* `routes/ticket_routes.py` — the `/api/tickets/<id>/assign` handler.

Python wall-clock instants (`time.time()`, `datetime.now()`) are modelled as
exact rationals (`ℚ`); mutable module state is passed explicitly; I/O
(file system, base64 codec, MIME guessing) is an explicit environment record.
-/

namespace AutoAssist

/-! ## `utils/cache.py` — TTL cache

The module-level dict `_cache_storage` maps a key to a pair
`(value, expires_at)`.  We model the store as a function `K → Option (V × ℚ)`
and pass the current value of `time.time()` explicitly. -/

/-- The `_cache_storage` dict: each key holds `(value, expires_at)`. -/
def CacheStore (K V : Type) : Type := K → Option (V × ℚ)

/-- `cache_get(key, default)` at wall-clock time `now`: returns the cached
value while `now < expires`, otherwise deletes the expired entry and returns
the default.  Result is `(returned value, store after the call)`. -/
def cache_get {K V : Type} [DecidableEq K] (store : CacheStore K V) (now : ℚ)
    (key : K) (default : V) : V × CacheStore K V :=
  match store key with
  | some (value, expires) =>
      if now < expires then (value, store)
      else (default, fun k => if k = key then none else store k)
  | none => (default, store)

/-- `cache_set(key, value, expires_in)` at wall-clock time `now`:
stores `(value, now + expires_in)`. -/
def cache_set {K V : Type} [DecidableEq K] (store : CacheStore K V) (now : ℚ)
    (key : K) (value : V) (expires_in : ℚ) : CacheStore K V :=
  fun k => if k = key then some (value, now + expires_in) else store k

/-- `cache_delete(key)`: removes the key, returns whether it was present. -/
def cache_delete {K V : Type} [DecidableEq K] (store : CacheStore K V)
    (key : K) : Bool × CacheStore K V :=
  match store key with
  | some _ => (true, fun k => if k = key then none else store k)
  | none => (false, store)

/-! ## `utils/cache.py` — rate limiter

`_rate_limit_storage` is a `defaultdict(list)` of timestamps per key; we model
one key's list.  `rate_limit_check` first drops entries outside the window,
then either denies (list unchanged) or appends the current timestamp. -/

/-- One step of `rate_limit_check` on a single key's timestamp list, at
wall-clock time `now`.  Returns `(new list, allowed?)`. -/
def rate_limit_check (limit : ℕ) (window : ℚ) (store : List ℚ) (now : ℚ) :
    List ℚ × Bool :=
  let kept := store.filter (fun t => now - t < window)
  if limit ≤ kept.length then (kept, false)
  else (kept ++ [now], true)

/-- A sequence of `rate_limit_check` calls on one key, at the given wall-clock
times; yields each call's `(time, allowed?)` log entry. -/
def rate_limit_run (limit : ℕ) (window : ℚ) (store : List ℚ) :
    List ℚ → List (ℚ × Bool)
  | [] => []
  | c :: cs =>
      let step := rate_limit_check limit window store c
      (c, step.2) :: rate_limit_run limit window step.1 cs

/-- The final timestamp list after a sequence of `rate_limit_check` calls. -/
def rate_limit_finalStore (limit : ℕ) (window : ℚ) (store : List ℚ) :
    List ℚ → List ℚ
  | [] => store
  | c :: cs =>
      rate_limit_finalStore limit window (rate_limit_check limit window store c).1 cs

/-- The times of the allowed calls in a `rate_limit_run` log. -/
def allowedTimes (log : List (ℚ × Bool)) : List ℚ :=
  (log.filter (fun e => e.2)).map (fun e => e.1)

/-! ## `middleware/session_manager.py` -/

/-- The session's `_last_refresh` entry, as `refresh_session` sees it:
absent (or the empty string), a non-empty string `datetime.fromisoformat`
rejects, or a string parsing to the instant `t` (in seconds).  For an
unparseable string, `prefixMatchesNow` records whether its first 16
characters coincide with `datetime.now().isoformat()[:16]` — the code
compares that prefix before trying to parse.  For a parsed instant the
16-character prefix is the calendar minute, modelled as `t / 60`. -/
inductive StoredTS : Type
  | absent : StoredTS
  | unparseable (prefixMatchesNow : Bool) : StoredTS
  | valid (t : ℕ) : StoredTS
deriving DecidableEq, Repr

/-- The Flask session fields the middleware and the route handlers read and
write.  `member_id = none` models `'member_id' not in session`. -/
structure PySession : Type where
  member_id : Option String
  member_name : Option String
  permanent : Bool
  lastRefresh : StoredTS
deriving DecidableEq, Repr

/-- Outcome of `refresh_session`: the session afterwards, whether the
`session['_last_refresh'] = now_str` write ran, and the returned bool. -/
structure RefreshResult : Type where
  session : PySession
  wroteLastRefresh : Bool
  ret : Bool
deriving DecidableEq, Repr

/-- `refresh_session()` at wall-clock time `now` (seconds).  Mirrors the
source: under `member_id`, ensure `permanent`; skip entirely when the stored
prefix minute equals the current one; otherwise re-write `_last_refresh`
only when it is missing, unparseable, or more than 300 seconds old. -/
def refresh_session (now : ℕ) (s : PySession) : RefreshResult :=
  if s.member_id.isSome then
    let s1 : PySession := { s with permanent := true }
    -- `if not last_refresh or now_str[:16] != last_refresh[:16]:`
    let enter : Bool :=
      match s.lastRefresh with
      | .absent => true
      | .unparseable pm => !pm
      | .valid t => !(t / 60 == now / 60)
    if enter then
      -- `needs_refresh` after the try/except parse
      let needs_refresh : Bool :=
        match s.lastRefresh with
        | .absent => true
        | .unparseable _ => true
        | .valid t => decide ((now : ℤ) - (t : ℤ) > 300)
      if needs_refresh then
        ⟨{ s1 with lastRefresh := .valid now }, true, true⟩
      else ⟨s1, false, true⟩
    else ⟨s1, false, true⟩
  else ⟨s, false, false⟩

/-- `is_authenticated()`: `'member_id' in session`. -/
def is_authenticated (s : PySession) : Bool := s.member_id.isSome

/-! ## Python string primitives

Python strings are modelled as `List Char`.  `str.strip()` etc. use Python's
default whitespace set (which on the ASCII range is also the regex `\s`). -/

/-- Python whitespace / the regex class `\s`, on the ASCII range. -/
def isSpace (c : Char) : Bool :=
  c = ' ' || c = '\t' || c = '\n' || c = '\r' || c = '\x0b' || c = '\x0c'

/-- `str.lstrip()`. -/
def pyLStrip (l : List Char) : List Char := l.dropWhile isSpace

/-- `str.rstrip()`. -/
def pyRStrip (l : List Char) : List Char :=
  (l.reverse.dropWhile isSpace).reverse

/-- `str.strip()`. -/
def pyStrip (l : List Char) : List Char := pyLStrip (pyRStrip l)

/-- `text.split('\n')` — every segment kept, empties included. -/
def splitNl (l : List Char) : List (List Char) := l.splitOn '\n'

/-- `'\n'.join(lines)`. -/
def joinNl (ls : List (List Char)) : List Char := List.intercalate ['\n'] ls

/-- Case-insensitive character comparison (regex `re.IGNORECASE`). -/
def ciEq (a b : Char) : Bool := a.toLower == b.toLower

/-- Case-insensitive literal prefix test. -/
def startsWithCI : List Char → List Char → Bool
  | [], _ => true
  | _ :: _, [] => false
  | p :: ps, c :: cs => ciEq p c && startsWithCI ps cs

/-- Does `p` hold of some suffix of the list? (Regex scanning.) -/
def existsSuffix (p : List Char → Bool) : List Char → Bool
  | [] => p []
  | l@(_ :: rest) => p l || existsSuffix p rest

/-! ## `strip_email_quotes` — the quote-marker patterns

Each Python regex of `strip_email_quotes` is rendered as a decision
procedure for "this regex has a match here"; non-greedy/greedy operators
only affect which match is taken, not whether one exists, and each
pattern below is anchored enough to make the rendering deterministic. -/

/-- Tail `\s*:\s*$` of the per-line `On … wrote:` pattern, on a line
(no newline present, `$` = end of string). -/
def colonTailLine (u : List Char) : Bool :=
  match u.dropWhile isSpace with
  | ':' :: rest => rest.all isSpace
  | _ => false

/-- `wrote\s*:\s*$` starts exactly here (per-line pattern). -/
def wroteHereLine (u : List Char) : Bool :=
  startsWithCI ['w', 'r', 'o', 't', 'e'] u && colonTailLine (u.drop 5)

/-- `re.match(r'^On\s+.+wrote\s*:\s*$', stripped, re.IGNORECASE)`:
literal `On`, one mandatory whitespace, at least one further character,
then `wrote`, optional whitespace, a colon, trailing whitespace. -/
def onWroteLine (s : List Char) : Bool :=
  match s with
  | o :: n :: c :: rest =>
      ciEq o 'O' && ciEq n 'n' && isSpace c &&
      (match rest with
       | [] => false
       | _ :: rest2 => existsSuffix wroteHereLine rest2)
  | _ => false

/-- `re.match(r'^-{3,}\s*Original Message\s*-{3,}$', stripped, re.IGNORECASE)`. -/
def origMsgLine (s : List Char) : Bool :=
  let dashes := s.takeWhile (· == '-')
  let r1 := s.dropWhile (· == '-')
  decide (3 ≤ dashes.length) &&
    (let r2 := r1.dropWhile isSpace
     startsWithCI ("Original Message".data) r2 &&
       (let r3 := (r2.drop 16).dropWhile isSpace
        decide (3 ≤ r3.length) && r3.all (· == '-')))

/-- `re.match(r'^From:\s+.+', stripped)` (case-sensitive). -/
def fromHeaderLine (s : List Char) : Bool :=
  match s with
  | 'F' :: 'r' :: 'o' :: 'm' :: ':' :: c :: _ :: _ => isSpace c
  | _ => false

/-- `re.match(r'^(Sent|Date|To|Subject):', next_line, re.IGNORECASE)`. -/
def outlookHeaderNext (s : List Char) : Bool :=
  startsWithCI "Sent:".data s || startsWithCI "Date:".data s ||
    startsWithCI "To:".data s || startsWithCI "Subject:".data s

/-- `re.match(r'^_{5,}$|^-{5,}$|^={5,}$', stripped)`. -/
def separLine (s : List Char) : Bool :=
  decide (5 ≤ s.length) &&
    (s.all (· == '_') || s.all (· == '-') || s.all (· == '='))

/-! ### The multi-line pass-1 regex `\n\s*On\s+.+?wrote\s*:\s*$`
(`re.IGNORECASE | re.DOTALL | re.MULTILINE` on the full text).  `.` also
matches newlines; `$` matches at the end of the text and before any `'\n'`. -/

/-- `\s*:\s*$` in multi-line mode, `u` being the rest of the whole text:
whitespace, a colon, then whitespace up to a newline or up to the end. -/
def colonTailMulti (u : List Char) : Bool :=
  match u.dropWhile isSpace with
  | ':' :: rest =>
      (rest.takeWhile isSpace).contains '\n' || rest.all isSpace
  | _ => false

/-- `wrote\s*:\s*$` (multi-line mode) starts exactly here. -/
def wroteHereMulti (u : List Char) : Bool :=
  startsWithCI ['w', 'r', 'o', 't', 'e'] u && colonTailMulti (u.drop 5)

/-- `\s*On\s+.+?wrote\s*:\s*$` (multi-line mode) matches at the start of
`u`, the text right after a `'\n'`. -/
def p1After (u : List Char) : Bool :=
  match u.dropWhile isSpace with
  | o :: n :: c :: rest =>
      ciEq o 'O' && ciEq n 'n' && isSpace c &&
      (match rest with
       | [] => false
       | _ :: rest2 => existsSuffix wroteHereMulti rest2)
  | _ => false

/-- Position of the first match of the pass-1 regex (the index of its
leading `'\n'`), as `re.search` finds it. -/
def p1Search : List Char → Option ℕ
  | [] => none
  | c :: rest =>
      if c = '\n' && p1After rest then some 0
      else (p1Search rest).map (· + 1)

/-- Is this line (given the following lines, for the Outlook `From:` check)
one of the per-line quote markers of pass 2? -/
def lineMarker (line : List Char) (rest : List (List Char)) : Bool :=
  let s := pyStrip line
  onWroteLine s || origMsgLine s || separLine s ||
    (fromHeaderLine s &&
      (match rest with
       | next :: _ => outlookHeaderNext (pyStrip next)
       | [] => false))

/-- Line-level view of the pass-1 search, on the tail of the line list:
the least `j` with a pass-1 match starting at the newline in front of
`ls.drop j` (so `p1After` holds of the joined suffix). -/
def minP1Tail : List (List Char) → Option ℕ
  | [] => none
  | ls@(_ :: rest) =>
      if p1After (joinNl ls) then some 0 else (minP1Tail rest).map (· + 1)

/-- Line-level view of the pass-1 search on the whole line list: the least
`k ≥ 1` such that the pass-1 regex matches at the newline preceding line
`k`. -/
def minP1 (lines : List (List Char)) : Option ℕ :=
  match lines with
  | [] => none
  | _ :: rest => (minP1Tail rest).map (· + 1)

/-- Pass 2 of `strip_email_quotes`: index of the first line that is a quote
marker (`cut_index`; the list length when there is none).  The Outlook
`From:` marker needs the next line to be a `Sent/Date/To/Subject:` header. -/
def pass2Cut : List (List Char) → ℕ
  | [] => 0
  | line :: rest => if lineMarker line rest then 0 else 1 + pass2Cut rest

/-- `while result_lines and result_lines[-1].strip().startswith('>'): pop`. -/
def dropTrailingQuoted (ls : List (List Char)) : List (List Char) :=
  (ls.reverse.dropWhile (fun l => (pyStrip l).head? == some '>')).reverse

/-- `while result_lines and not result_lines[-1].strip(): pop`. -/
def dropTrailingBlankL (ls : List (List Char)) : List (List Char) :=
  (ls.reverse.dropWhile (fun l => (pyStrip l).isEmpty)).reverse

/-- The closing clean-up both passes share: drop trailing quoted lines, then
trailing blank lines, join and strip. -/
def cleanLines (X : List (List Char)) : List Char :=
  pyStrip (joinNl (dropTrailingBlankL (dropTrailingQuoted X)))

/-- `strip_email_quotes(text)` for a string argument (the `None` case of the
Python function is `strip_email_quotes_opt`). -/
def strip_email_quotes (text : List Char) : List Char :=
  if text.isEmpty then []
  else
    let t1 := match p1Search text with
      | some i => pyRStrip (text.take i)
      | none => text
    let lines := splitNl t1
    cleanLines (lines.take (pass2Cut lines))

/-- `strip_email_quotes` on an optional (possibly `None`) argument. -/
def strip_email_quotes_opt : Option (List Char) → List Char
  | none => []
  | some t => strip_email_quotes t

/-! ## The specification-level reading of `strip_email_quotes`

The spec describes the function as removing "the first quote marker …
together with everything after it, then removing trailing quoted lines and
trailing blank lines".  `specCutAux allowWrapped lines` is the index of that
first marker line: one of the four per-line markers, or the line where a
(possibly wrapped) `On … wrote:` block begins.  The flag tells whether a
newline precedes the current line; `specCutAux` passes `true` below the top.
`strip_email_quotes_claim` takes the claim literally (a wrapped block is a
marker even on the first line); `strip_email_quotes_spec` is the amended
reading (a wrapped block needs a preceding newline, as the pass-1 regex
`\n\s*On…` demands). -/

/-- Index of the first spec-level quote-marker line.  The wrapped
`On … wrote:` check on the suffix starting at this line is `p1After` of the
joined suffix; it participates only when `wrappedHere` allows it. -/
def specCutAux : Bool → List (List Char) → ℕ
  | _, [] => 0
  | wrappedHere, line :: rest =>
      if lineMarker line rest ||
          (wrappedHere && p1After (joinNl (line :: rest))) then 0
      else 1 + specCutAux true rest

/-- The spec's description of `strip_email_quotes`, amended: cut at the first
marker line (wrapped `On … wrote:` blocks count only below the first line),
then drop trailing `'>'`-quoted lines, then trailing blank lines, and strip. -/
def strip_email_quotes_spec (text : List Char) : List Char :=
  if text.isEmpty then []
  else
    let lines := splitNl text
    cleanLines (lines.take (specCutAux false lines))

/-- The claim read literally: a wrapped `On … wrote:` block is a quote marker
wherever it starts, the first line included. -/
def strip_email_quotes_claim (text : List Char) : List Char :=
  if text.isEmpty then []
  else
    let lines := splitNl text
    cleanLines (lines.take (specCutAux true lines))

/-! ## Falsiness helpers for MongoDB document fields

Document fields are modelled as `Option`; `none` is an absent field.  Python
truthiness on strings and byte strings also treats empty values as false. -/

/-- Python truthiness of an optional string field. -/
def truthyS : Option String → Bool
  | some s => !(s == "")
  | none => false

/-- Python `a or b` on two optional string fields. -/
def pyOrS (a b : Option String) : Option String :=
  if truthyS a then a else b

/-- Python truthiness of an optional byte string (`None` and `b''` false). -/
def truthyB : Option (List ℕ) → Bool
  | some bs => !bs.isEmpty
  | none => false

/-! ## The webhook data model (`routes/webhook_routes.py`) -/

/-- An attachment document as stored on a reply (also the shape the webhook
payload carries for dict attachments).  All fields optional. -/
structure AttachmentDoc : Type where
  filename : Option String := none
  fileName : Option String := none
  data : Option String := none
  fileData : Option String := none
  file_path : Option String := none
  content_type : Option String := none
  type : Option String := none
  ref : Option String := none
  document_id : Option String := none
deriving DecidableEq, Repr

/-- A raw attachment as it arrives in the webhook payload: a dict, a bare
string, or something of another type (skipped with a warning). -/
inductive RawAtt : Type
  | dict (a : AttachmentDoc) : RawAtt
  | str (s : String) : RawAtt
  | invalid : RawAtt
deriving DecidableEq, Repr

/-- Normalisation of one raw attachment: dicts get a `filename`
(`fileName`, else `'attachment'`) when theirs is missing or empty; strings
become a base64-encoded `attachment.txt`; other types are dropped.
`b64encode` abstracts `base64.b64encode(att.encode()).decode()`. -/
def normalizeAtt (b64encode : String → String) : RawAtt → Option AttachmentDoc
  | .dict a =>
      some (if truthyS a.filename then a
            else { a with filename := some (a.fileName.getD "attachment") })
  | .str s =>
      some { filename := some "attachment.txt", content_type := some "text/plain",
             data := some (b64encode s), type := some "file" }
  | .invalid => none

/-- `normalized_attachments` from the raw payload list (a dict payload is
its list of values). -/
def normalizeAtts (b64encode : String → String) (l : List RawAtt) :
    List AttachmentDoc :=
  l.filterMap (normalizeAtt b64encode)

/-- A reply document. -/
structure ReplyDoc : Type where
  rid : ℕ
  ticket_id : String
  message : List Char
  sender_name : String
  sender_type : String
  attachments : List AttachmentDoc
  created_at : ℚ
deriving DecidableEq, Repr

/-- The ticket fields the webhook handler touches. -/
structure TicketDoc : Type where
  tid : String
  has_unread_reply : Bool := false
  last_reply_at : Option ℚ := none
  message_id : Option String := none
  threadId : Option String := none
deriving DecidableEq, Repr

/-- The MongoDB state the webhook handler reads and writes.  `nextId` is the
next fresh ObjectId (ObjectIds are modelled as naturals). -/
structure WebhookDB : Type where
  tickets : List TicketDoc
  replies : List ReplyDoc
  nextId : ℕ
deriving DecidableEq, Repr

/-- `db.get_ticket_by_id`. -/
def get_ticket_by_id (db : WebhookDB) (tid : String) : Option TicketDoc :=
  db.tickets.find? (fun t => t.tid == tid)

/-- `db.update_ticket(tid, fields)` — `f` is the `$set` of the given fields. -/
def update_ticket (db : WebhookDB) (tid : String) (f : TicketDoc → TicketDoc) :
    WebhookDB :=
  { db with tickets := db.tickets.map (fun t => if t.tid == tid then f t else t) }

/-- `db.replies.update_one({'_id': rid}, {'$set': …})`. -/
def updateReply (db : WebhookDB) (rid : ℕ) (f : ReplyDoc → ReplyDoc) :
    WebhookDB :=
  { db with replies := db.replies.map (fun r => if r.rid == rid then f r else r) }

/-- The webhook payload after JSON decoding, holding exactly the fields the
handler reads.  Each textual body field is `none` when absent or not a
string.  `nestedTexts` are the string subfields found inside the nested
`body`/`conversation`/`email` dicts, in the loop order of the code, with
`html` subfields already passed through `html_to_text`; `htmlText` is the
top-level `html` field after `html_to_text` (absent when the raw field is
missing or whitespace-only).  `portal_reply_id` is the
`portal_reply_id`/`reply_id` field when it is a well-formed ObjectId;
`message_id` and `threadId` merge their alias fields and are `none` when
missing or blank. -/
structure WebhookPayload : Type where
  ticket_id : Option String := none
  body : Option (List Char) := none
  text : Option (List Char) := none
  plainText : Option (List Char) := none
  textBody : Option (List Char) := none
  email_body : Option (List Char) := none
  reply_message : Option (List Char) := none
  replyMessage : Option (List Char) := none
  reply_text : Option (List Char) := none
  content : Option (List Char) := none
  message : Option (List Char) := none
  reply : Option (List Char) := none
  snippet : Option (List Char) := none
  bodyPreview : Option (List Char) := none
  conversationBody : Option (List Char) := none
  nestedTexts : List (List Char) := []
  htmlText : Option (List Char) := none
  portal_reply_id : Option ℕ := none
  message_id : Option String := none
  threadId : Option String := none
  attachments : List RawAtt := []
  sender_name : Option String := none

/-- `message_candidates`, in the order the handler builds the list. -/
def messageCandidates (p : WebhookPayload) : List (Option (List Char)) :=
  [p.body, p.text, p.plainText, p.textBody, p.email_body, p.reply_message,
   p.replyMessage, p.reply_text, p.content, p.message, p.reply, p.snippet,
   p.bodyPreview, p.conversationBody] ++ p.nestedTexts.map some

/-- Pick the longest stripped candidate (strictly longer wins; ties keep the
earlier one). -/
def selectLongest (cands : List (Option (List Char))) : List Char :=
  cands.foldl
    (fun m c =>
      match c with
      | some c => let c := pyStrip c; if m.length < c.length then c else m
      | none => m) []

/-- The extracted message: longest plain-text candidate, replaced by the
converted `html` field when that is strictly longer. -/
def extractMessage (p : WebhookPayload) : List Char :=
  let m := selectLongest (messageCandidates p)
  match p.htmlText with
  | some h => if m.length < h.length then h else m
  | none => m

/-- Sort replies by `created_at` descending (`.sort('created_at', -1)`). -/
def sortByCreatedDesc (rs : List ReplyDoc) : List ReplyDoc :=
  rs.mergeSort (fun a b => decide (b.created_at ≤ a.created_at))

/-- The five most recent agent replies on the ticket from the last 2 minutes
(the content-idempotency query). -/
def recentAgentReplies (db : WebhookDB) (tid : String) (now : ℚ) :
    List ReplyDoc :=
  (sortByCreatedDesc (db.replies.filter (fun r =>
    r.ticket_id == tid && decide (now - 120 ≤ r.created_at) &&
      r.sender_type == "agent"))).take 5

/-- The portal-echo idempotency lookup: the reply named by
`portal_reply_id`, on this ticket. -/
def portalEcho (db : WebhookDB) (tid : String) : Option ℕ → Option ReplyDoc
  | none => none
  | some prid => db.replies.find? (fun r => r.rid == prid && r.ticket_id == tid)

/-- The content-echo idempotency lookup: among the five most recent agent
replies of the last 2 minutes, one whose stripped message equals the
stripped incoming message (skipped for a blank message). -/
def contentEcho (db : WebhookDB) (tid : String) (now : ℚ)
    (msgStripped : List Char) : Option ReplyDoc :=
  if msgStripped.isEmpty then none
  else (recentAgentReplies db tid now).find?
    (fun r => pyStrip r.message == msgStripped)

/-- The merge-check lookup: most recent webhook reply of the last 5 minutes
on this ticket with no attachments. -/
def findMergeable (db : WebhookDB) (tid : String) (now : ℚ) : Option ReplyDoc :=
  (sortByCreatedDesc (db.replies.filter (fun r =>
    r.ticket_id == tid && decide (now - 300 ≤ r.created_at) &&
      r.sender_type == "webhook" && r.attachments.isEmpty))).head?

/-- The JSON responses of `POST /api/webhook/reply`. -/
inductive WebhookResp : Type
  | noData : WebhookResp
  | noTicketId : WebhookResp
  | noMessage : WebhookResp
  | ticketNotFound : WebhookResp
  | idempotent (reply_id : ℕ) : WebhookResp
  | merged (reply_id : ℕ) (attachments_merged : ℕ) : WebhookResp
  | created (reply_id : ℕ) : WebhookResp
deriving DecidableEq, Repr

/-- The merge branch of the webhook handler: attach the normalized
attachments to the recent attachment-less webhook reply (keeping the longer
message), mark the ticket unread, answer `merged`. -/
def webhook_mergeReply (now : ℚ) (tid : String) (message : List Char)
    (normAtts : List AttachmentDoc) (existing : ReplyDoc) (db : WebhookDB) :
    WebhookResp × WebhookDB :=
  let newMsg := pyStrip (strip_email_quotes message)
  let db3 := updateReply db existing.rid (fun r =>
    let r1 := { r with attachments := normAtts }
    if (pyStrip existing.message).length < newMsg.length then
      { r1 with message := newMsg }
    else r1)
  let db4 := update_ticket db3 tid (fun t =>
    { t with has_unread_reply := true, last_reply_at := some now })
  (.merged existing.rid normAtts.length, db4)

/-- The create branch of the webhook handler: insert the quote-stripped
reply, mark the ticket unread, answer `created`. -/
def webhook_insertReply (now : ℚ) (tid : String) (message : List Char)
    (sender_name : String) (normAtts : List AttachmentDoc) (db : WebhookDB) :
    WebhookResp × WebhookDB :=
  let rdoc : ReplyDoc :=
    { rid := db.nextId, ticket_id := tid,
      message := strip_email_quotes message,
      sender_name := sender_name, sender_type := "webhook",
      attachments := normAtts, created_at := now }
  let db3 :=
    { db with
      replies := db.replies ++ [rdoc]
      nextId := db.nextId + 1 }
  let db4 := update_ticket db3 tid (fun t =>
    { t with has_unread_reply := true, last_reply_at := some now })
  (.created rdoc.rid, db4)

/-- The `/api/webhook/reply` handler.  `payload = none` is a request with no
JSON body. -/
def webhook_reply (now : ℚ) (b64encode : String → String)
    (payload : Option WebhookPayload) (db : WebhookDB) :
    WebhookResp × WebhookDB :=
  match payload with
  | none => (.noData, db)
  | some p =>
    match p.ticket_id with
    | none => (.noTicketId, db)
    | some tid =>
      let message := extractMessage p
      if message.isEmpty then (.noMessage, db)
      else
        match get_ticket_by_id db tid with
        | none => (.ticketNotFound, db)
        | some _ =>
          match portalEcho db tid p.portal_reply_id with
          | some existing => (.idempotent existing.rid, db)
          | none =>
            let message_stripped := pyStrip message
            match contentEcho db tid now message_stripped with
            | some recent => (.idempotent recent.rid, db)
            | none =>
              let db1 := match p.message_id with
                | some mid =>
                    update_ticket db tid (fun t => { t with message_id := some mid })
                | none => db
              let db2 := match p.threadId with
                | some th =>
                    update_ticket db1 tid (fun t => { t with threadId := some th })
                | none => db1
              let normAtts := normalizeAtts b64encode p.attachments
              match (if normAtts.isEmpty then none else findMergeable db2 tid now) with
              | some existing =>
                  webhook_mergeReply now tid message normAtts existing db2
              | none =>
                  webhook_insertReply now tid message
                    ((pyOrS p.sender_name none).getD "Customer") normAtts db2

/-! ## The attachment routes (`routes/attachment_routes.py`) -/

/-- A `common_documents` document. -/
structure CommonDoc : Type where
  did : String
  file_path : Option String := none
  file_data : Option String := none
  file_name : Option String := none
  file_type : Option String := none
deriving DecidableEq, Repr

/-- The I/O environment of the attachment routes: the file system, the
base64 decoder (`none` = `binascii` error raised) and `mimetypes.guess_type`. -/
structure FsEnv : Type where
  pathExists : String → Bool
  readFile : String → List ℕ
  b64decode : String → Option (List ℕ)
  guessMime : String → Option String

/-- `get_mime_type` from `utils/file_utils.py`. -/
def get_mime_type (env : FsEnv) (filename : String) : String :=
  if filename = "" then "application/octet-stream"
  else (env.guessMime filename).getD "application/octet-stream"

/-- The state the attachment routes read: tickets and replies with their
attachment arrays, and the common-documents collection. -/
structure AttachDB : Type where
  ticketAtts : List (String × List AttachmentDoc)
  replyAtts : List (ℕ × List AttachmentDoc)
  common_documents : List CommonDoc

/-- The responses of the attachment routes. -/
inductive AttachResp : Type
  | auth401 : AttachResp
  | notFound (msg : String) : AttachResp
  | fileResp (body : List ℕ) (mime : String) (filename : String)
      (asAttachment : Bool) : AttachResp
  | sendFileResp (path : String) (downloadName : String) (mime : String)
      (asAttachment : Bool) : AttachResp
deriving DecidableEq, Repr

/-- Shared tail of `download_attachment`/`preview_attachment`: base64 fields
first, then the file path on disk. -/
def ticketAttachmentData (env : FsEnv) (att : AttachmentDoc) :
    Option (List ℕ) :=
  let fromB64 :=
    if truthyS (pyOrS att.data att.fileData) then
      env.b64decode ((pyOrS att.data att.fileData).getD "")
    else none
  if truthyB fromB64 then fromB64
  else if truthyS att.file_path && env.pathExists (att.file_path.getD "") then
    some (env.readFile (att.file_path.getD ""))
  else fromB64

/-- `GET /api/attachments/ticket/<ticket_id>/<int:attachment_index>`.
The boolean records whether the database was touched. -/
def download_attachment (env : FsEnv) (db : AttachDB) (sess : PySession)
    (ticket_id : String) (idx : ℤ) : AttachResp × Bool :=
  if !(is_authenticated sess) then (.auth401, false)
  else
    match db.ticketAtts.find? (fun t => t.1 == ticket_id) with
    | none => (.notFound "Ticket not found", true)
    | some (_, atts) =>
      if idx < 0 ∨ (atts.length : ℤ) ≤ idx then (.notFound "Attachment not found", true)
      else
        let att := atts.getD idx.toNat {}
        let filename := att.filename.getD (att.fileName.getD "download")
        match ticketAttachmentData env att with
        | some bs =>
            if bs.isEmpty then (.notFound "Attachment data not available", true)
            else (.fileResp bs (get_mime_type env filename) filename true, true)
        | none => (.notFound "Attachment data not available", true)

/-- `GET /api/attachments/preview/<ticket_id>/<int:attachment_index>`. -/
def preview_attachment (env : FsEnv) (db : AttachDB) (sess : PySession)
    (ticket_id : String) (idx : ℤ) : AttachResp × Bool :=
  if !(is_authenticated sess) then (.auth401, false)
  else
    match db.ticketAtts.find? (fun t => t.1 == ticket_id) with
    | none => (.notFound "Ticket not found", true)
    | some (_, atts) =>
      if idx < 0 ∨ (atts.length : ℤ) ≤ idx then (.notFound "Attachment not found", true)
      else
        let att := atts.getD idx.toNat {}
        let filename := att.filename.getD (att.fileName.getD "file")
        match ticketAttachmentData env att with
        | some bs =>
            if bs.isEmpty then (.notFound "Attachment data not available", true)
            else (.fileResp bs (get_mime_type env filename) filename false, true)
        | none => (.notFound "Attachment data not available", true)

/-- The common-document branch of the reply-attachment routes: entered when
the attachment is typed `common-document` or carries a `document_id`; serves
the document from disk, else from its base64 `file_data`; yields `none`
when it does not return (and the cascade continues). -/
def commonDocBranch (env : FsEnv) (db : AttachDB) (att : AttachmentDoc)
    (filename : String) (asAttachment : Bool) : Option AttachResp :=
  if att.type == some "common-document" || att.document_id.isSome then
    match pyOrS att.ref att.document_id with
    | some doc_id =>
      match db.common_documents.find? (fun d => d.did == doc_id) with
      | some doc =>
        if truthyS doc.file_path && env.pathExists (doc.file_path.getD "") then
          some (.sendFileResp (doc.file_path.getD "") (doc.file_name.getD filename)
            (doc.file_type.getD (get_mime_type env filename)) asAttachment)
        else if truthyS doc.file_data then
          match env.b64decode (doc.file_data.getD "") with
          | some bs =>
              some (.fileResp bs (doc.file_type.getD (get_mime_type env filename))
                (doc.file_name.getD filename) asAttachment)
          | none => none
        else none
      | none => none
    | none => none
  else none

/-- The disk-then-base64 tail of the reply-attachment routes: read the file
at `file_path` when it exists; when that yields nothing truthy, decode the
`data`/`fileData` base64 fields. -/
def replyAttachmentData (env : FsEnv) (att : AttachmentDoc) :
    Option (List ℕ) :=
  let fromDisk :=
    if truthyS att.file_path && env.pathExists (att.file_path.getD "") then
      some (env.readFile (att.file_path.getD ""))
    else none
  if truthyB fromDisk then fromDisk
  else if truthyS (pyOrS att.data att.fileData) then
    match env.b64decode ((pyOrS att.data att.fileData).getD "") with
    | some bs => some bs
    | none => fromDisk
  else fromDisk

/-- `GET /api/attachments/reply/<reply_id>/<int:attachment_index>`
(`as_attachment`) and its `/preview` twin (inline), by the flag. -/
def reply_attachment_route (asAttachment : Bool) (env : FsEnv) (db : AttachDB)
    (sess : PySession) (reply_id : ℕ) (idx : ℤ) : AttachResp × Bool :=
  if !(is_authenticated sess) then (.auth401, false)
  else
    match db.replyAtts.find? (fun r => r.1 == reply_id) with
    | none => (.notFound "Reply not found", true)
    | some (_, atts) =>
      if idx < 0 ∨ (atts.length : ℤ) ≤ idx then (.notFound "Attachment not found", true)
      else
        let att := atts.getD idx.toNat {}
        let filename := att.filename.getD
          (att.fileName.getD (if asAttachment then "download" else "preview"))
        match commonDocBranch env db att filename asAttachment with
        | some resp => (resp, true)
        | none =>
          match replyAttachmentData env att with
          | some bs =>
              if bs.isEmpty then (.notFound "Attachment data not available", true)
              else
                (.fileResp bs ((pyOrS att.content_type none).getD
                    (get_mime_type env filename)) filename asAttachment, true)
          | none => (.notFound "Attachment data not available", true)

/-- `download_reply_attachment`. -/
def download_reply_attachment (env : FsEnv) (db : AttachDB) (sess : PySession)
    (reply_id : ℕ) (idx : ℤ) : AttachResp × Bool :=
  reply_attachment_route true env db sess reply_id idx

/-- `preview_reply_attachment`. -/
def preview_reply_attachment (env : FsEnv) (db : AttachDB) (sess : PySession)
    (reply_id : ℕ) (idx : ℤ) : AttachResp × Bool :=
  reply_attachment_route false env db sess reply_id idx

/-! ## Specification view of the reply-attachment resolution cascade

Each resolution source is a partial response; a cascade tries them in a
given order and serves the first success. -/

/-- The "file on disk" source: succeeds when `file_path` is set, exists and
reads back non-empty. -/
def diskSource (env : FsEnv) (att : AttachmentDoc) (filename : String)
    (asAttachment : Bool) : Option AttachResp :=
  if truthyS att.file_path && env.pathExists (att.file_path.getD "") &&
      !(env.readFile (att.file_path.getD "")).isEmpty then
    some (.fileResp (env.readFile (att.file_path.getD ""))
      ((pyOrS att.content_type none).getD (get_mime_type env filename))
      filename asAttachment)
  else none

/-- The "embedded base64 data" source: succeeds when `data`/`fileData` is
set and decodes to something non-empty. -/
def b64Source (env : FsEnv) (att : AttachmentDoc) (filename : String)
    (asAttachment : Bool) : Option AttachResp :=
  if truthyS (pyOrS att.data att.fileData) then
    match env.b64decode ((pyOrS att.data att.fileData).getD "") with
    | some bs =>
        if bs.isEmpty then none
        else some (.fileResp bs
          ((pyOrS att.content_type none).getD (get_mime_type env filename))
          filename asAttachment)
    | none => none
  else none

/-- The cascade the code implements: common-document lookup, then the file
on disk, then the embedded base64 data. -/
def replyCascade (env : FsEnv) (db : AttachDB) (att : AttachmentDoc)
    (filename : String) (asAttachment : Bool) : Option AttachResp :=
  (commonDocBranch env db att filename asAttachment).or
    ((diskSource env att filename asAttachment).or
      (b64Source env att filename asAttachment))

/-- The cascade in the order the claim states: embedded data fields first,
then the file path on disk, then the common-document lookup. -/
def replyCascadeClaimOrder (env : FsEnv) (db : AttachDB) (att : AttachmentDoc)
    (filename : String) (asAttachment : Bool) : Option AttachResp :=
  (b64Source env att filename asAttachment).or
    ((diskSource env att filename asAttachment).or
      (commonDocBranch env db att filename asAttachment))

/-- Fixture for the cascade-order counterexample: no disk, base64 payloads
`AAA` and `BBB` decode to different bytes. -/
def cexEnv : FsEnv :=
  { pathExists := fun _ => false, readFile := fun _ => [],
    b64decode := fun s =>
      if s = "AAA" then some [1] else if s = "BBB" then some [2] else none,
    guessMime := fun _ => none }

/-- Fixture: a reply attachment that both carries embedded base64 data and
points at a common document. -/
def cexAtt : AttachmentDoc :=
  { filename := some "f.bin", data := some "AAA",
    type := some "common-document", ref := some "d1" }

/-- Fixture: the database holding the reply and the common document the
attachment points at. -/
def cexDb : AttachDB :=
  { ticketAtts := [], replyAtts := [(1, [cexAtt])],
    common_documents :=
      [{ did := "d1", file_data := some "BBB", file_name := some "doc.pdf",
         file_type := some "application/pdf" }] }

/-- Fixture: an authenticated session. -/
def cexSess : PySession := ⟨some "m1", none, true, .absent⟩

/-! ## `assign_ticket` (`routes/ticket_routes.py`) -/

/-- `validate_ticket_id` from `utils/validators.py`: non-empty, at most 50
characters, no spaces. -/
def validate_ticket_id (tid : String) : Bool :=
  !(tid == "") && decide (tid.length ≤ 50) && !(tid.data.contains ' ')

/-- The ticket fields `assign_ticket` touches. -/
structure TicketA : Type where
  tid : String
  status : String := "Open"
  subject : String := ""
  updated_at : Option ℚ := none
  is_forwarded : Bool := false
  forwarded_by : Option String := none
  forwarded_to : Option String := none
  forwarded_at : Option ℚ := none
  forwarding_note : Option String := none
  assigned_to : Option String := none
  assigned_by : Option String := none
  assigned_at : Option ℚ := none
deriving DecidableEq, Repr

/-- An assignment record (`db.assign_ticket(assignment_data)`). -/
structure AssignmentDoc : Type where
  ticket_id : String
  member_id : String
  forwarded_from : Option String := none
  is_forwarded : Bool
  assigned_at : ℚ
  notes : Option String := none
  is_seen : Bool
deriving DecidableEq, Repr

/-- The ticket-routes database state. -/
structure TicketsDB : Type where
  tickets : List TicketA
  assignments : List AssignmentDoc
deriving DecidableEq, Repr

/-- The JSON body of `POST /api/tickets/<id>/assign`.  `assigned_to = none`
is an absent or falsy target member. -/
structure AssignReq : Type where
  is_forwarded : Bool := false
  assigned_to : Option String := none
  note : String := ""
deriving DecidableEq, Repr

/-- The responses of `assign_ticket`. -/
inductive AssignResp : Type
  | auth401 : AssignResp
  | invalidTicket400 : AssignResp
  | targetRequired400 : AssignResp
  | notFound404 : AssignResp
  | ok (msg : String) : AssignResp
deriving DecidableEq, Repr

/-- `Database.assign_ticket` (`database.py`): any existing assignment for
the ticket is removed first (`find_one` then `delete_one` on `ticket_id`,
which deletes the first match), and the new record is inserted after it.
The route always supplies `assigned_at`, `is_seen` and truthy ids, so the
`setdefault` and validation branches do not alter the document here, and
the duplicate-key retry is a concurrent-insert path that cannot fire after
the delete in this sequential semantics. -/
def db_assign_ticket (assignments : List AssignmentDoc)
    (a : AssignmentDoc) : List AssignmentDoc :=
  assignments.eraseP (fun x => x.ticket_id == a.ticket_id) ++ [a]

/-- The `POST /api/tickets/<ticket_id>/assign` handler (Take Over or
Forward).  ObjectId round-trips on member ids are identity here. -/
def assign_ticket (now : ℚ) (sess : PySession) (ticket_id : String)
    (req : AssignReq) (db : TicketsDB) : AssignResp × TicketsDB :=
  if !(is_authenticated sess) then (.auth401, db)
  else if !(validate_ticket_id ticket_id) then (.invalidTicket400, db)
  else
    match db.tickets.find? (fun t => t.tid == ticket_id) with
    | none => (.notFound404, db)
    | some _ =>
      if req.is_forwarded then
        match req.assigned_to with
        | none => (.targetRequired400, db)
        | some target =>
          let assignment : AssignmentDoc :=
            { ticket_id := ticket_id, member_id := target,
              forwarded_from := sess.member_id, is_forwarded := true,
              assigned_at := now, notes := some req.note, is_seen := false }
          let db1 := { db with
            assignments := db_assign_ticket db.assignments assignment }
          let db2 := { db1 with tickets := db1.tickets.map (fun t =>
            if t.tid == ticket_id then
              { t with
                updated_at := some now
                is_forwarded := true
                forwarded_by := sess.member_id
                forwarded_to := some target
                forwarded_at := some now
                forwarding_note := some req.note
                status := "Open" }
            else t) }
          (.ok "Ticket forwarded successfully", db2)
      else
        let assignment : AssignmentDoc :=
          { ticket_id := ticket_id, member_id := sess.member_id.getD "",
            is_forwarded := false, assigned_at := now, is_seen := true }
        let db1 := { db with
          assignments := db_assign_ticket db.assignments assignment }
        let db2 := { db1 with tickets := db1.tickets.map (fun t =>
          if t.tid == ticket_id then
            { t with
              updated_at := some now
              assigned_to := sess.member_id
              assigned_by := sess.member_id
              assigned_at := some now
              status := "In Progress" }
          else t) }
        (.ok "Ticket taken over successfully", db2)

/-! ## Theorems about the cache and the rate limiter -/

/-- Dropping entries dead at time `c` does not change which entries are alive
at a later time `c'`. -/
lemma countP_filter_window (window : ℚ) {c c' : ℚ} (hcc : c ≤ c') (l : List ℚ) :
    (l.filter (fun τ => decide (c - τ < window))).countP
        (fun τ => decide (c' - τ < window))
      = l.countP (fun τ => decide (c' - τ < window)) := by
  rw [List.countP_filter]
  apply List.countP_congr
  intro x _
  simp only [Bool.and_eq_true, decide_eq_true_eq]
  exact ⟨fun h => h.1, fun h => ⟨h, by linarith⟩⟩

/-- Sliding-window invariant for `rate_limit_run`: if the store dominates the
already-allowed timestamps (`past`) on every future window, and `past` never
has more than `limit` entries in any window, the same stays true of `past`
extended with the newly allowed timestamps. -/
lemma rate_limit_run_window_bound (limit : ℕ) (window : ℚ) :
    ∀ (calls store past : List ℚ),
      calls.Pairwise (· ≤ ·) →
      (∀ c ∈ calls, ∀ p ∈ past, p ≤ c) →
      (∀ c ∈ calls, past.countP (fun τ => decide (c - τ < window)) ≤
        store.countP (fun τ => decide (c - τ < window))) →
      (∀ T : ℚ, past.countP (fun τ => decide (T - window < τ ∧ τ ≤ T)) ≤ limit) →
      ∀ T : ℚ, (past ++ allowedTimes (rate_limit_run limit window store calls)).countP
          (fun τ => decide (T - window < τ ∧ τ ≤ T)) ≤ limit := by
  intro calls
  induction calls with
  | nil =>
      intro store past _ _ _ h4 T
      simpa [rate_limit_run, allowedTimes] using h4 T
  | cons c cs ih =>
      intro store past hpw h2 h3 h4 T
      rw [List.pairwise_cons] at hpw
      have hc_mem : c ∈ c :: cs := List.mem_cons_self c cs
      set kept := store.filter (fun τ => decide (c - τ < window)) with hkept
      by_cases hlim : limit ≤ kept.length
      · -- denied: store becomes `kept`, no timestamp recorded
        have hrun : rate_limit_run limit window store (c :: cs)
            = (c, false) :: rate_limit_run limit window kept cs := by
          simp [rate_limit_run, rate_limit_check, hkept, hlim]
        rw [hrun]
        have : allowedTimes ((c, false) :: rate_limit_run limit window kept cs)
            = allowedTimes (rate_limit_run limit window kept cs) := by
          simp [allowedTimes]
        rw [this]
        apply ih kept past hpw.2
        · intro c' hc' p hp; exact h2 c' (List.mem_cons_of_mem _ hc') p hp
        · intro c' hc'
          have hcc : c ≤ c' := hpw.1 c' hc'
          rw [hkept, countP_filter_window window hcc]
          exact h3 c' (List.mem_cons_of_mem _ hc')
        · exact h4
      · -- allowed: timestamp `c` is appended to the store and to the log
        have hrun : rate_limit_run limit window store (c :: cs)
            = (c, true) :: rate_limit_run limit window (kept ++ [c]) cs := by
          simp [rate_limit_run, rate_limit_check, hkept, hlim]
        rw [hrun]
        have hAl : allowedTimes ((c, true) :: rate_limit_run limit window (kept ++ [c]) cs)
            = c :: allowedTimes (rate_limit_run limit window (kept ++ [c]) cs) := by
          simp [allowedTimes]
        rw [hAl]
        have hmain := ih (kept ++ [c]) (past ++ [c]) hpw.2 ?h2 ?h3 ?h4 T
        · have hre : past ++ c :: allowedTimes (rate_limit_run limit window (kept ++ [c]) cs)
              = (past ++ [c]) ++ allowedTimes (rate_limit_run limit window (kept ++ [c]) cs) := by
            simp
          rw [hre]
          exact hmain
        case h2 =>
          intro c' hc' p hp
          rcases List.mem_append.mp hp with hp | hp
          · exact h2 c' (List.mem_cons_of_mem _ hc') p hp
          · rcases List.mem_singleton.mp hp with rfl
            exact hpw.1 c' hc'
        case h3 =>
          intro c' hc'
          have hcc : c ≤ c' := hpw.1 c' hc'
          rw [List.countP_append, List.countP_append,
            countP_filter_window window hcc]
          exact Nat.add_le_add_right
            (h3 c' (List.mem_cons_of_mem _ hc')) _
        case h4 =>
          intro T'
          rw [List.countP_append]
          by_cases hcw : T' - window < c ∧ c ≤ T'
          · have hmono : past.countP (fun τ => decide (T' - window < τ ∧ τ ≤ T'))
                ≤ past.countP (fun τ => decide (c - τ < window)) := by
              apply List.countP_mono_left
              intro p hp hpin
              simp only [decide_eq_true_eq] at hpin ⊢
              have hpc : p ≤ c := h2 c hc_mem p hp
              have := hpin.1
              have := hcw.2
              linarith
            have hlt : kept.length < limit := Nat.lt_of_not_le hlim
            have hsc : past.countP (fun τ => decide (c - τ < window)) ≤ kept.length := by
              rw [hkept, ← List.countP_eq_length_filter]
              exact h3 c hc_mem
            have h1 : List.countP (fun τ => decide (T' - window < τ ∧ τ ≤ T')) [c] = 1 := by
              simp [List.countP_cons, hcw]
            omega
          · have h0 : List.countP (fun τ => decide (T' - window < τ ∧ τ ≤ T')) [c] = 0 := by
              simp [List.countP_cons, hcw]
            rw [h0]
            simpa using h4 T'

/-- C9 — Rate-limit bound invariant: `rate_limit_check` allows a call and
records its timestamp exactly when fewer than `limit` recorded timestamps lie
inside the window; the timestamp list never grows beyond `limit` entries; and
along any chronologically ordered call sequence starting from the empty list,
no window of length `window` contains more than `limit` allowed calls. -/
theorem rate_limit_bound (limit : ℕ) (window : ℚ) :
    (∀ (store : List ℚ) (now : ℚ),
      ((rate_limit_check limit window store now).2 = true ↔
        (store.filter (fun t => now - t < window)).length < limit) ∧
      (rate_limit_check limit window store now).1 =
        (if (store.filter (fun t => now - t < window)).length < limit
         then store.filter (fun t => now - t < window) ++ [now]
         else store.filter (fun t => now - t < window))) ∧
    (∀ (store : List ℚ) (now : ℚ), store.length ≤ limit →
      ((rate_limit_check limit window store now).1).length ≤ limit) ∧
    (∀ (store calls : List ℚ), store.length ≤ limit →
      (rate_limit_finalStore limit window store calls).length ≤ limit) ∧
    (∀ calls : List ℚ, calls.Pairwise (· ≤ ·) →
      ∀ T : ℚ, (allowedTimes (rate_limit_run limit window [] calls)).countP
        (fun τ => decide (T - window < τ ∧ τ ≤ T)) ≤ limit) := by
  have hstep : ∀ (store : List ℚ) (now : ℚ), store.length ≤ limit →
      ((rate_limit_check limit window store now).1).length ≤ limit := by
    intro store now h
    by_cases hlim : limit ≤ (store.filter (fun t => now - t < window)).length
    · simpa [rate_limit_check, hlim] using
        le_trans (List.length_filter_le _ store) h
    · have : (store.filter (fun t => now - t < window)).length < limit :=
        Nat.lt_of_not_le hlim
      simp only [rate_limit_check, if_neg hlim, List.length_append,
        List.length_singleton]
      omega
  refine ⟨?_, hstep, ?_, ?_⟩
  · intro store now
    by_cases hlim : limit ≤ (store.filter (fun t => now - t < window)).length
    · constructor
      · simp [rate_limit_check, hlim, Nat.not_lt.mpr hlim]
      · simp [rate_limit_check, hlim, if_neg (Nat.not_lt.mpr hlim)]
    · have hlt := Nat.lt_of_not_le hlim
      constructor
      · simp [rate_limit_check, hlim, hlt]
      · simp [rate_limit_check, hlim, if_pos hlt]
  · intro store calls
    induction calls generalizing store with
    | nil => intro h; simpa [rate_limit_finalStore] using h
    | cons c cs ih =>
        intro h
        simpa [rate_limit_finalStore] using ih _ (hstep store c h)
  · intro calls hpw T
    simpa using
      rate_limit_run_window_bound limit window calls [] [] hpw
        (by intro c _ p hp; simp at hp)
        (by intro c _; simp)
        (by intro T'; simp) T

/-- Closed witness for the rate-limit theorem: two calls at times 0 and 1
with `limit = 1`, `window = 10`; at most one call in the window ending at 1. -/
theorem rate_limit_bound_witness :
    (allowedTimes (rate_limit_run 1 10 [] [0, 1])).countP
      (fun τ => decide ((1 : ℚ) - 10 < τ ∧ τ ≤ 1)) ≤ 1 :=
  (rate_limit_bound 1 10).2.2.2 [0, 1]
    (by norm_num [List.pairwise_cons]) 1

/-- C5 — TTL cache correctness: after `cache_set key v e` at time `t₀`, a
`cache_get` strictly before `t₀ + e` returns `v` and leaves the store alone;
a `cache_get` at or after `t₀ + e` returns the default and deletes the entry;
an absent key, and a deleted key, yield the default. -/
theorem cache_ttl_correct {K V : Type} [DecidableEq K]
    (store : CacheStore K V) (key : K) (v default : V) (t₀ t₁ e : ℚ) :
    (t₁ < t₀ + e →
      cache_get (cache_set store t₀ key v e) t₁ key default
        = (v, cache_set store t₀ key v e)) ∧
    (t₀ + e ≤ t₁ →
      (cache_get (cache_set store t₀ key v e) t₁ key default).1 = default ∧
      ((cache_get (cache_set store t₀ key v e) t₁ key default).2) key = none) ∧
    (store key = none →
      cache_get store t₁ key default = (default, store)) ∧
    ((cache_delete store key).2 key = none ∧
      cache_get ((cache_delete store key).2) t₁ key default
        = (default, (cache_delete store key).2)) := by
  have hset : cache_set store t₀ key v e key = some (v, t₀ + e) := by
    simp [cache_set]
  have hdel : (cache_delete store key).2 key = none := by
    cases h : store key with
    | none => simp [cache_delete, h]
    | some p => simp [cache_delete, h]
  refine ⟨?_, ?_, ?_, hdel, ?_⟩
  · intro hlt
    simp [cache_get, hset, hlt]
  · intro hge
    have hnot : ¬ t₁ < t₀ + e := not_lt.mpr hge
    constructor
    · simp [cache_get, hset, hnot]
    · simp [cache_get, hset, hnot]
  · intro hnone
    simp [cache_get, hnone]
  · simp [cache_get, hdel]

/-- Closed witness for the TTL-cache theorem, on a one-entry natural-number
cache: a hit strictly before expiry and a default at expiry. -/
theorem cache_ttl_correct_witness :
    (cache_get (cache_set (fun _ => none) 0 (0 : ℕ) (1 : ℕ) 2) 1 0 7
        = (1, cache_set (fun _ => none) 0 (0 : ℕ) (1 : ℕ) 2)) ∧
    (cache_get (cache_set (fun _ => none) 0 (0 : ℕ) (1 : ℕ) 2) 2 0 7).1 = 7 :=
  ⟨(cache_ttl_correct (fun _ => none) 0 1 7 0 1 2).1 (by norm_num),
   ((cache_ttl_correct (fun _ => none) 0 1 7 0 2 2).2.1 (by norm_num)).1⟩

/-- C7 — Session cookie refresh throttling: with `member_id` present and a
stored `_last_refresh` that parses and lies within the last 300 seconds,
`refresh_session` does not rewrite `_last_refresh`; it rewrites it only when
the stored stamp is missing/unparseable or more than 300 seconds old; and it
returns `True` exactly when the session contains `member_id`. -/
theorem refresh_session_throttles :
    (∀ (now : ℕ) (s : PySession) (t : ℕ),
      s.member_id.isSome = true → s.lastRefresh = .valid t →
      t ≤ now → (now : ℤ) - (t : ℤ) ≤ 300 →
      (refresh_session now s).wroteLastRefresh = false ∧
      (refresh_session now s).session.lastRefresh = s.lastRefresh) ∧
    (∀ (now : ℕ) (s : PySession) (t : ℕ),
      (refresh_session now s).wroteLastRefresh = true →
      s.lastRefresh = .valid t → (now : ℤ) - (t : ℤ) > 300) ∧
    (∀ (now : ℕ) (s : PySession),
      (refresh_session now s).ret = is_authenticated s) := by
  refine ⟨?_, ?_, ?_⟩
  · intro now s t hm hlr _ hdiff
    have hnr : decide ((now : ℤ) - (t : ℤ) > 300) = false := by
      simp only [decide_eq_false_iff_not]
      exact not_lt.mpr hdiff
    by_cases hpm : (t / 60 == now / 60) = true
    · simp [refresh_session, hm, hlr, hpm]
    · have hpm' : (t / 60 == now / 60) = false := Bool.eq_false_iff.mpr hpm
      simp [refresh_session, hm, hlr, hpm', hnr]
  · intro now s t hwrote hlr
    by_contra hle
    have hdiff : (now : ℤ) - (t : ℤ) ≤ 300 := not_lt.mp hle
    have hnr : decide ((now : ℤ) - (t : ℤ) > 300) = false := by
      simp only [decide_eq_false_iff_not]
      exact not_lt.mpr hdiff
    by_cases hm : s.member_id.isSome = true
    · by_cases hpm : (t / 60 == now / 60) = true
      · simp [refresh_session, hm, hlr, hpm] at hwrote
      · have hpm' : (t / 60 == now / 60) = false := Bool.eq_false_iff.mpr hpm
        simp [refresh_session, hm, hlr, hpm', hnr] at hwrote
    · have hm' : s.member_id.isSome = false := Bool.eq_false_iff.mpr hm
      simp [refresh_session, hm'] at hwrote
  · intro now s
    by_cases hm : s.member_id.isSome = true
    · cases hlr : s.lastRefresh with
      | absent => simp [refresh_session, is_authenticated, hm, hlr]
      | unparseable pm =>
          cases pm <;> simp [refresh_session, is_authenticated, hm, hlr]
      | valid t =>
          by_cases hpm : (t / 60 == now / 60) = true
          · simp [refresh_session, is_authenticated, hm, hlr, hpm]
          · have hpm' : (t / 60 == now / 60) = false := Bool.eq_false_iff.mpr hpm
            by_cases hnr : decide ((now : ℤ) - (t : ℤ) > 300) = true
            · simp [refresh_session, is_authenticated, hm, hlr, hpm', hnr]
            · have hnr' : decide ((now : ℤ) - (t : ℤ) > 300) = false :=
                Bool.eq_false_iff.mpr hnr
              simp [refresh_session, is_authenticated, hm, hlr, hpm', hnr']
    · have hm' : s.member_id.isSome = false := Bool.eq_false_iff.mpr hm
      simp [refresh_session, is_authenticated, hm']

/-- Updating in place the first element `find?` hits keeps it the first hit,
provided the update preserves the predicate. -/
lemma find?_update_eq {α : Type} (p : α → Bool) (f : α → α) :
    ∀ (l : List α) (x : α), l.find? p = some x → p (f x) = true →
      (l.map (fun a => if p a then f a else a)).find? p = some (f x) := by
  intro l
  induction l with
  | nil => intro x h; simp at h
  | cons a l ih =>
      intro x h hfx
      by_cases hpa : p a = true
      · rw [List.find?_cons_of_pos _ hpa] at h
        injection h with h; subst h
        simp only [List.map_cons, if_pos hpa]
        exact List.find?_cons_of_pos _ hfx
      · have hpa' : p a = false := Bool.eq_false_iff.mpr hpa
        rw [List.find?_cons_of_neg _ (by simp [hpa'])] at h
        simp only [List.map_cons, if_neg (by simp [hpa'] : ¬ p a = true)]
        rw [List.find?_cons_of_neg _ (by simp [hpa'])]
        exact ih x h hfx

/-- C8 — Session-dict authentication gate: `is_authenticated` is exactly the
presence of `member_id`, and each of the four attachment routes answers an
unauthenticated request with the 401 before touching the database. -/
theorem attachment_auth_gate :
    (∀ s : PySession, is_authenticated s = s.member_id.isSome) ∧
    (∀ (env : FsEnv) (db : AttachDB) (sess : PySession) (tid : String) (idx : ℤ),
      sess.member_id = none →
      download_attachment env db sess tid idx = (.auth401, false) ∧
      preview_attachment env db sess tid idx = (.auth401, false)) ∧
    (∀ (env : FsEnv) (db : AttachDB) (sess : PySession) (rid : ℕ) (idx : ℤ),
      sess.member_id = none →
      download_reply_attachment env db sess rid idx = (.auth401, false) ∧
      preview_reply_attachment env db sess rid idx = (.auth401, false)) := by
  refine ⟨fun _ => rfl, ?_, ?_⟩
  · intro env db sess tid idx h
    constructor <;>
      simp [download_attachment, preview_attachment, is_authenticated, h]
  · intro env db sess rid idx h
    constructor <;>
      simp [download_reply_attachment, preview_reply_attachment,
        reply_attachment_route, is_authenticated, h]

/-- Closed witness for the authentication gate: a session without
`member_id` gets the 401 from the reply-attachment download with the
database untouched. -/
theorem attachment_auth_gate_witness :
    download_reply_attachment
        ⟨fun _ => false, fun _ => [], fun _ => none, fun _ => none⟩
        ⟨[], [], []⟩ ⟨none, none, false, .absent⟩ 1 0
      = (.auth401, false) :=
  (attachment_auth_gate.2.2
    ⟨fun _ => false, fun _ => [], fun _ => none, fun _ => none⟩
    ⟨[], [], []⟩ ⟨none, none, false, .absent⟩ 1 0 rfl).1

/-- C6 — Forwarding marks the ticket as routed: on an authenticated forward
request for an existing ticket, a missing target is a 400 that leaves the
database unchanged; with a target, the ticket gets `forwarded_to`,
`is_forwarded`, status `Open`, the forwarding note and timestamp, and an
unseen assignment record for the target member is appended. -/
theorem assign_ticket_forwarding (now : ℚ) (sess : PySession) (tid : String)
    (req : AssignReq) (db : TicketsDB) (tk : TicketA)
    (hauth : is_authenticated sess = true)
    (hvalid : validate_ticket_id tid = true)
    (hfound : db.tickets.find? (fun t => t.tid == tid) = some tk)
    (hfwd : req.is_forwarded = true) :
    (req.assigned_to = none →
      assign_ticket now sess tid req db = (.targetRequired400, db)) ∧
    (∀ target : String, req.assigned_to = some target →
      (assign_ticket now sess tid req db).1 = .ok "Ticket forwarded successfully" ∧
      (assign_ticket now sess tid req db).2.tickets.find? (fun t => t.tid == tid)
        = some { tk with
            updated_at := some now, is_forwarded := true,
            forwarded_by := sess.member_id, forwarded_to := some target,
            forwarded_at := some now, forwarding_note := some req.note,
            status := "Open" } ∧
      (assign_ticket now sess tid req db).2.assignments
        = db.assignments.eraseP (fun a => a.ticket_id == tid) ++
            [{ ticket_id := tid, member_id := target,
               forwarded_from := sess.member_id, is_forwarded := true,
               assigned_at := now, notes := some req.note, is_seen := false }]) := by
  have htk : (tk.tid == tid) = true := by
    have h := hfound
    rw [List.find?_eq_some] at h
    simpa using h.1
  constructor
  · intro hnone
    simp [assign_ticket, hauth, hvalid, hfound, hfwd, hnone]
  · intro target htarget
    refine ⟨?_, ?_, ?_⟩
    · simp [assign_ticket, hauth, hvalid, hfound, hfwd, htarget]
    · simp only [assign_ticket, hauth, hvalid, hfound, hfwd, htarget]
      simp only [Bool.not_true, Bool.false_eq_true, if_false]
      exact find?_update_eq _ _ db.tickets tk hfound (by simpa using htk)
    · simp [assign_ticket, db_assign_ticket, hauth, hvalid, hfound, hfwd,
        htarget]

/-- Closed witness for the forwarding theorem: forwarding ticket `T1` to
member `m2` when `T1` already has an assignment replaces that record with
the new unseen one and reports success. -/
theorem assign_ticket_forwarding_witness :
    (assign_ticket 50 ⟨some "m1", some "Ann", true, .absent⟩ "T1"
        ⟨true, some "m2", "please check"⟩
        ⟨[{ tid := "T1" }],
         [{ ticket_id := "T1", member_id := "m3", is_forwarded := false,
            assigned_at := 10, is_seen := true }]⟩).1
        = .ok "Ticket forwarded successfully" ∧
      (assign_ticket 50 ⟨some "m1", some "Ann", true, .absent⟩ "T1"
          ⟨true, some "m2", "please check"⟩
          ⟨[{ tid := "T1" }],
           [{ ticket_id := "T1", member_id := "m3", is_forwarded := false,
              assigned_at := 10, is_seen := true }]⟩).2.assignments
        = [{ ticket_id := "T1", member_id := "m2",
             forwarded_from := some "m1", is_forwarded := true,
             assigned_at := 50, notes := some "please check",
             is_seen := false }] :=
  ⟨((assign_ticket_forwarding 50 ⟨some "m1", some "Ann", true, .absent⟩ "T1"
      ⟨true, some "m2", "please check"⟩
      ⟨[{ tid := "T1" }],
       [{ ticket_id := "T1", member_id := "m3", is_forwarded := false,
          assigned_at := 10, is_seen := true }]⟩ { tid := "T1" }
      rfl (by decide) rfl rfl).2 "m2" rfl).1,
   (((assign_ticket_forwarding 50 ⟨some "m1", some "Ann", true, .absent⟩ "T1"
      ⟨true, some "m2", "please check"⟩
      ⟨[{ tid := "T1" }],
       [{ ticket_id := "T1", member_id := "m3", is_forwarded := false,
          assigned_at := 10, is_seen := true }]⟩ { tid := "T1" }
      rfl (by decide) rfl rfl).2 "m2" rfl).2.2).trans (by decide)⟩

/-- `update_ticket` leaves the reply collection alone. -/
lemma update_ticket_replies (db : WebhookDB) (tid : String)
    (f : TicketDoc → TicketDoc) : (update_ticket db tid f).replies = db.replies :=
  rfl

/-- `update_ticket` leaves the ObjectId counter alone. -/
lemma update_ticket_nextId (db : WebhookDB) (tid : String)
    (f : TicketDoc → TicketDoc) : (update_ticket db tid f).nextId = db.nextId :=
  rfl

/-- The merge-check lookup only reads replies, so ticket updates do not
change it. -/
lemma findMergeable_update_ticket (db : WebhookDB) (tid tid' : String)
    (f : TicketDoc → TicketDoc) (now : ℚ) :
    findMergeable (update_ticket db tid f) tid' now = findMergeable db tid' now :=
  rfl

/-- C1 — Webhook reply idempotency by recent duplicate message: when the
content-echo lookup (same stripped message among the five most recent agent
replies of the last two minutes) hits a reply `r`, the handler answers the
idempotent success carrying `r.rid` and leaves the database untouched; and
`r` really is such a reply. -/
theorem webhook_reply_dup_idempotent
    (now : ℚ) (enc : String → String) (p : WebhookPayload) (db : WebhookDB)
    (tid : String) (tk : TicketDoc) (r : ReplyDoc)
    (htid : p.ticket_id = some tid)
    (hmsg : extractMessage p ≠ [])
    (htk : get_ticket_by_id db tid = some tk)
    (hportal : portalEcho db tid p.portal_reply_id = none)
    (hdup : contentEcho db tid now (pyStrip (extractMessage p)) = some r) :
    webhook_reply now enc (some p) db = (.idempotent r.rid, db) ∧
    r ∈ db.replies ∧ r.ticket_id = tid ∧ r.sender_type = "agent" ∧
    now - 120 ≤ r.created_at ∧
    pyStrip r.message = pyStrip (extractMessage p) := by
  have hne : (extractMessage p).isEmpty = false := by
    rw [List.isEmpty_eq_false]; exact hmsg
  refine ⟨?_, ?_⟩
  · simp [webhook_reply, htid, hne, htk, hportal, hdup]
  · have hfind : (recentAgentReplies db tid now).find?
        (fun x => pyStrip x.message == pyStrip (extractMessage p)) = some r := by
      by_cases he : (pyStrip (extractMessage p)).isEmpty = true
      · simp [contentEcho, he] at hdup
      · simpa [contentEcho, Bool.eq_false_iff.mpr he] using hdup
    have hmem5 : r ∈ recentAgentReplies db tid now :=
      List.mem_of_find?_eq_some hfind
    have hmsgEq : pyStrip r.message = pyStrip (extractMessage p) := by
      have h := hfind
      rw [List.find?_eq_some] at h
      simpa using h.1
    have hmemf : r ∈ db.replies.filter (fun x =>
        x.ticket_id == tid && decide (now - 120 ≤ x.created_at) &&
          x.sender_type == "agent") := by
      have h1 : r ∈ sortByCreatedDesc (db.replies.filter (fun x =>
          x.ticket_id == tid && decide (now - 120 ≤ x.created_at) &&
            x.sender_type == "agent")) :=
        List.mem_of_mem_take (by simpa [recentAgentReplies] using hmem5)
      exact (List.mergeSort_perm _ _).mem_iff.mp h1
    rw [List.mem_filter] at hmemf
    obtain ⟨hmem, hpred⟩ := hmemf
    simp only [Bool.and_eq_true, beq_iff_eq, decide_eq_true_eq] at hpred
    exact ⟨hmem, hpred.1.1, hpred.2, hpred.1.2, hmsgEq⟩

/-- Closed witness for the duplicate-message idempotency: an echo of the
agent reply `Thanks!` saved 50 seconds earlier is answered idempotently. -/
theorem webhook_reply_dup_idempotent_witness :
    webhook_reply 150 id
        (some { ticket_id := some "T1", body := some "Thanks!".data })
        ⟨[{ tid := "T1" }],
         [⟨7, "T1", "Thanks!".data, "Ann", "agent", [], 100⟩], 8⟩
      = (.idempotent 7,
         ⟨[{ tid := "T1" }],
          [⟨7, "T1", "Thanks!".data, "Ann", "agent", [], 100⟩], 8⟩) :=
  (webhook_reply_dup_idempotent 150 id
    { ticket_id := some "T1", body := some "Thanks!".data }
    ⟨[{ tid := "T1" }], [⟨7, "T1", "Thanks!".data, "Ann", "agent", [], 100⟩], 8⟩
    "T1" { tid := "T1" } ⟨7, "T1", "Thanks!".data, "Ann", "agent", [], 100⟩
    rfl (by decide) (by decide) rfl
    (by norm_num [contentEcho, recentAgentReplies, sortByCreatedDesc,
          List.mergeSort, List.filter]
        decide)).1

/-- After `update_ticket`, the lookup of the updated ticket yields the
updated document, provided the update keeps the id. -/
lemma update_ticket_find? (db : WebhookDB) (tid : String)
    (f : TicketDoc → TicketDoc) (tk : TicketDoc)
    (h : db.tickets.find? (fun t => t.tid == tid) = some tk)
    (hp : ((f tk).tid == tid) = true) :
    (update_ticket db tid f).tickets.find? (fun t => t.tid == tid)
      = some (f tk) :=
  find?_update_eq (fun t => t.tid == tid) f db.tickets tk h hp

/-- C2 — Webhook reply merged into the ticket history: with an existing
ticket, a non-empty extracted message and no idempotency or merge hit, the
handler appends a fresh `webhook` reply with the quote-stripped message,
marks the ticket unread with a fresh `last_reply_at`, and returns the new
id. -/
theorem webhook_reply_creates
    (now : ℚ) (enc : String → String) (p : WebhookPayload) (db : WebhookDB)
    (tid : String) (tk : TicketDoc)
    (htid : p.ticket_id = some tid)
    (hmsg : extractMessage p ≠ [])
    (htk : get_ticket_by_id db tid = some tk)
    (hportal : portalEcho db tid p.portal_reply_id = none)
    (hdup : contentEcho db tid now (pyStrip (extractMessage p)) = none)
    (hmerge : normalizeAtts enc p.attachments = [] ∨
      findMergeable db tid now = none) :
    (webhook_reply now enc (some p) db).1 = .created db.nextId ∧
    (webhook_reply now enc (some p) db).2.replies = db.replies ++
      [{ rid := db.nextId, ticket_id := tid,
         message := strip_email_quotes (extractMessage p),
         sender_name := (pyOrS p.sender_name none).getD "Customer",
         sender_type := "webhook",
         attachments := normalizeAtts enc p.attachments, created_at := now }] ∧
    (webhook_reply now enc (some p) db).2.tickets.find? (fun t => t.tid == tid)
      = some { tk with
          has_unread_reply := true, last_reply_at := some now,
          message_id := match p.message_id with
            | some m => some m | none => tk.message_id,
          threadId := match p.threadId with
            | some th => some th | none => tk.threadId } := by
  have hne : (extractMessage p).isEmpty = false := by
    rw [List.isEmpty_eq_false]; exact hmsg
  have htk' : (tk.tid == tid) = true := by
    have h : db.tickets.find? (fun t => t.tid == tid) = some tk := htk
    rw [List.find?_eq_some] at h
    simpa using h.1
  have hmergeNone : ∀ db' : WebhookDB, db'.replies = db.replies →
      (if (normalizeAtts enc p.attachments).isEmpty then none
       else findMergeable db' tid now) = none := by
    intro db' hrep
    rcases hmerge with h | h
    · simp [h]
    · have hfm : findMergeable db' tid now = none := by
        unfold findMergeable at h ⊢
        rw [hrep]
        exact h
      simp [hfm]
  rcases hmi : p.message_id with _ | m <;> rcases hth : p.threadId with _ | th
  case none.none =>
    have hred : webhook_reply now enc (some p) db =
        webhook_insertReply now tid (extractMessage p)
          ((pyOrS p.sender_name none).getD "Customer")
          (normalizeAtts enc p.attachments) db := by
      simp only [webhook_reply, htid, hne, htk, hportal, hdup, hmi, hth,
        Bool.false_eq_true, if_false]
      rw [hmergeNone db rfl]
    rw [hred]
    refine ⟨rfl, rfl, ?_⟩
    have hfind := update_ticket_find? _ tid
      (fun t => { t with has_unread_reply := true, last_reply_at := some now })
      tk htk htk'
    simpa [webhook_insertReply, update_ticket] using hfind
  case none.some =>
    have hred : webhook_reply now enc (some p) db =
        webhook_insertReply now tid (extractMessage p)
          ((pyOrS p.sender_name none).getD "Customer")
          (normalizeAtts enc p.attachments)
          (update_ticket db tid (fun t => { t with threadId := some th })) := by
      simp only [webhook_reply, htid, hne, htk, hportal, hdup, hmi, hth,
        Bool.false_eq_true, if_false]
      rw [hmergeNone
        (update_ticket db tid (fun t => { t with threadId := some th })) rfl]
    rw [hred]
    refine ⟨rfl, rfl, ?_⟩
    have h1 := update_ticket_find? db tid
      (fun t => { t with threadId := some th }) tk htk htk'
    have h2 := update_ticket_find? _ tid
      (fun t => { t with has_unread_reply := true, last_reply_at := some now })
      _ h1 htk'
    simpa [webhook_insertReply, update_ticket] using h2
  case some.none =>
    have hred : webhook_reply now enc (some p) db =
        webhook_insertReply now tid (extractMessage p)
          ((pyOrS p.sender_name none).getD "Customer")
          (normalizeAtts enc p.attachments)
          (update_ticket db tid (fun t => { t with message_id := some m })) := by
      simp only [webhook_reply, htid, hne, htk, hportal, hdup, hmi, hth,
        Bool.false_eq_true, if_false]
      rw [hmergeNone
        (update_ticket db tid (fun t => { t with message_id := some m })) rfl]
    rw [hred]
    refine ⟨rfl, rfl, ?_⟩
    have h1 := update_ticket_find? db tid
      (fun t => { t with message_id := some m }) tk htk htk'
    have h2 := update_ticket_find? _ tid
      (fun t => { t with has_unread_reply := true, last_reply_at := some now })
      _ h1 htk'
    simpa [webhook_insertReply, update_ticket] using h2
  case some.some =>
    have hred : webhook_reply now enc (some p) db =
        webhook_insertReply now tid (extractMessage p)
          ((pyOrS p.sender_name none).getD "Customer")
          (normalizeAtts enc p.attachments)
          (update_ticket (update_ticket db tid
              (fun t => { t with message_id := some m })) tid
            (fun t => { t with threadId := some th })) := by
      simp only [webhook_reply, htid, hne, htk, hportal, hdup, hmi, hth,
        Bool.false_eq_true, if_false]
      rw [hmergeNone
        (update_ticket (update_ticket db tid
            (fun t => { t with message_id := some m })) tid
          (fun t => { t with threadId := some th })) rfl]
    rw [hred]
    refine ⟨rfl, rfl, ?_⟩
    have h1 := update_ticket_find? db tid
      (fun t => { t with message_id := some m }) tk htk htk'
    have h2 := update_ticket_find? _ tid
      (fun t => { t with threadId := some th }) _ h1 htk'
    have h3 := update_ticket_find? _ tid
      (fun t => { t with has_unread_reply := true, last_reply_at := some now })
      _ h2 htk'
    simpa [webhook_insertReply, update_ticket] using h3

/-- Closed witness for the create path: a fresh webhook reply is inserted
and returned. -/
theorem webhook_reply_creates_witness :
    (webhook_reply 150 id
        (some { ticket_id := some "T1", body := some "Hello team".data })
        ⟨[{ tid := "T1" }], [], 8⟩).1
      = .created 8 :=
  (webhook_reply_creates 150 id
    { ticket_id := some "T1", body := some "Hello team".data }
    ⟨[{ tid := "T1" }], [], 8⟩
    "T1" { tid := "T1" }
    rfl (by decide) (by decide) rfl
    (by norm_num [contentEcho, recentAgentReplies, sortByCreatedDesc,
      List.mergeSort, List.filter])
    (Or.inl rfl)).1


/-- Closed witness for the refresh-throttling theorem: at time 1000 with a
valid stamp 800 (200 s old), nothing is rewritten and `True` is returned. -/
theorem refresh_session_throttles_witness :
    (refresh_session 1000 ⟨some "m1", none, true, .valid 800⟩).wroteLastRefresh = false ∧
    (refresh_session 1000 ⟨some "m1", none, true, .valid 800⟩).session.lastRefresh
      = StoredTS.valid 800 :=
  refresh_session_throttles.1 1000 ⟨some "m1", none, true, .valid 800⟩ 800
    rfl rfl (by norm_num) (by norm_num)

/-- The disk-then-base64 tail of the reply-attachment handler agrees with
trying the disk source, then the base64 source. -/
lemma replyData_cascade (env : FsEnv) (att : AttachmentDoc) (filename : String)
    (asAttachment : Bool) :
    (match replyAttachmentData env att with
     | some bs =>
        if bs.isEmpty then none
        else some (AttachResp.fileResp bs
          ((pyOrS att.content_type none).getD (get_mime_type env filename))
          filename asAttachment)
     | none => none)
    = (diskSource env att filename asAttachment).or
        (b64Source env att filename asAttachment) := by
  by_cases hp : (truthyS att.file_path &&
      env.pathExists (att.file_path.getD "")) = true
  · by_cases hr : (env.readFile (att.file_path.getD "")).isEmpty = true
    · by_cases hb : truthyS (pyOrS att.data att.fileData) = true
      · cases hdec : env.b64decode ((pyOrS att.data att.fileData).getD "") with
        | none =>
            simp [replyAttachmentData, diskSource, b64Source, truthyB,
              hp, hr, hb, hdec]
        | some bs =>
            by_cases hbe : bs.isEmpty = true
            · simp [replyAttachmentData, diskSource, b64Source, truthyB,
                hp, hr, hb, hdec, hbe]
            · simp [replyAttachmentData, diskSource, b64Source, truthyB,
                hp, hr, hb, hdec, hbe]
      · simp [replyAttachmentData, diskSource, b64Source, truthyB,
          hp, hr, Bool.eq_false_iff.mpr hb]
    · simp [replyAttachmentData, diskSource, b64Source, truthyB, hp, hr]
  · by_cases hb : truthyS (pyOrS att.data att.fileData) = true
    · cases hdec : env.b64decode ((pyOrS att.data att.fileData).getD "") with
      | none =>
          simp [replyAttachmentData, diskSource, b64Source, truthyB,
            hp, hb, hdec]
      | some bs =>
          by_cases hbe : bs.isEmpty = true
          · simp [replyAttachmentData, diskSource, b64Source, truthyB,
              hp, hb, hdec, hbe]
          · simp [replyAttachmentData, diskSource, b64Source, truthyB,
              hp, hb, hdec, hbe]
    · simp [replyAttachmentData, diskSource, b64Source, truthyB,
        hp, Bool.eq_false_iff.mpr hb]

/-- C3 (amended) — Attachment-resolution fallback cascade order: on an
authenticated request for a valid index, the reply-attachment routes serve
the first success of common-document lookup, then file on disk, then
embedded base64 data, and answer 404 `Attachment data not available` only
when every source fails. -/
theorem reply_attachment_cascade
    (asAttachment : Bool) (env : FsEnv) (db : AttachDB) (sess : PySession)
    (rid : ℕ) (idx : ℤ) (pr : ℕ × List AttachmentDoc)
    (hauth : is_authenticated sess = true)
    (hfound : db.replyAtts.find? (fun r => r.1 == rid) = some pr)
    (hidx : 0 ≤ idx ∧ idx < (pr.2.length : ℤ)) :
    reply_attachment_route asAttachment env db sess rid idx =
      ((replyCascade env db (pr.2.getD idx.toNat {})
          ((pr.2.getD idx.toNat {}).filename.getD
            ((pr.2.getD idx.toNat {}).fileName.getD
              (if asAttachment then "download" else "preview")))
          asAttachment).getD (.notFound "Attachment data not available"),
       true) := by
  obtain ⟨hidx0, hidxlt⟩ := hidx
  have hguard : ¬ (idx < 0 ∨ (pr.2.length : ℤ) ≤ idx) := by omega
  obtain ⟨rid', atts⟩ := pr
  simp only [reply_attachment_route, hauth, Bool.not_true,
    Bool.false_eq_true, if_false, hfound]
  rw [if_neg hguard]
  set att := atts.getD idx.toNat {} with hatt
  set filename := att.filename.getD
    (att.fileName.getD (if asAttachment then "download" else "preview"))
  cases hcd : commonDocBranch env db att filename asAttachment with
  | some resp => simp [replyCascade, hcd]
  | none =>
      simp only [replyCascade, hcd, Option.none_or]
      rw [← replyData_cascade env att filename asAttachment]
      cases hrd : replyAttachmentData env att with
      | none => simp
      | some bs =>
          by_cases hbe : bs.isEmpty = true
          · simp [hbe]
          · simp [hbe]

/-- Closed witness for the cascade theorem: with only embedded base64 data
present, the data source serves the bytes. -/
theorem reply_attachment_cascade_witness :
    reply_attachment_route true cexEnv
        ⟨[], [(2, [{ filename := some "a.txt", data := some "AAA" }])], []⟩
        cexSess 2 0
      = (.fileResp [1] "application/octet-stream" "a.txt" true, true) := by
  rw [reply_attachment_cascade true cexEnv
    ⟨[], [(2, [{ filename := some "a.txt", data := some "AAA" }])], []⟩
    cexSess 2 0 (2, [{ filename := some "a.txt", data := some "AAA" }])
    rfl rfl (by constructor <;> decide)]
  decide

/-- C3 counterexample — the cascade order the claim states (embedded data
first, common-document lookup last) disagrees with the handler on an
attachment that has both: the handler serves the common document. -/
theorem reply_attachment_cascade_counterexample :
    (download_reply_attachment cexEnv cexDb cexSess 1 0).1
      = .fileResp [2] "application/pdf" "doc.pdf" true ∧
    (replyCascadeClaimOrder cexEnv cexDb cexAtt "f.bin" true).getD
        (.notFound "Attachment data not available")
      = .fileResp [1] "application/octet-stream" "f.bin" true ∧
    (download_reply_attachment cexEnv cexDb cexSess 1 0).1
      ≠ (replyCascadeClaimOrder cexEnv cexDb cexAtt "f.bin" true).getD
          (.notFound "Attachment data not available") := by
  refine ⟨by decide, by decide, by decide⟩

/-! ## String-primitive lemmas for the `strip_email_quotes` development -/

/-- `splitNl` never yields the empty list of lines. -/
lemma splitNl_ne_nil (t : List Char) : splitNl t ≠ [] :=
  List.splitOnP_ne_nil _ t

/-- The segments of `splitNl` contain no newline. -/
lemma nl_not_mem_splitNl : ∀ (t : List Char), ∀ l ∈ splitNl t, '\n' ∉ l := by
  intro t
  induction t with
  | nil =>
      intro l hl
      simp only [splitNl, List.splitOn_nil, List.mem_singleton] at hl
      subst hl
      simp
  | cons c t ih =>
      intro l hl
      rw [show splitNl (c :: t) = (c :: t).splitOnP (· == '\n') from rfl,
        List.splitOnP_cons] at hl
      by_cases hc : c = '\n'
      · rw [if_pos (by simp [hc])] at hl
        rcases List.mem_cons.mp hl with h | h
        · subst h; simp
        · exact ih l h
      · rw [if_neg (by simpa using hc)] at hl
        have hsp : splitNl t = t.splitOnP (· == '\n') := rfl
        cases hs : t.splitOnP (· == '\n') with
        | nil => exact absurd hs (by rw [← hsp]; exact splitNl_ne_nil t)
        | cons s ss =>
            rw [hs, List.modifyHead] at hl
            rcases List.mem_cons.mp hl with h | h
            · subst h
              intro hmem
              rcases List.mem_cons.mp hmem with h | h
              · exact hc h.symm
              · exact ih s (by rw [hsp, hs]; exact List.mem_cons_self _ _) h
            · exact ih l (by rw [hsp, hs]; exact List.mem_cons_of_mem _ h)

/-- Joining the lines of a split gives the text back. -/
lemma joinNl_splitNl (t : List Char) : joinNl (splitNl t) = t := by
  simpa [splitNl, joinNl] using List.intercalate_splitOn t '\n'

/-- Splitting a join gives the lines back, when they are newline-free. -/
lemma splitNl_joinNl {ls : List (List Char)} (h : ∀ l ∈ ls, '\n' ∉ l)
    (h2 : ls ≠ []) : splitNl (joinNl ls) = ls := by
  simpa [splitNl, joinNl] using List.splitOn_intercalate ls '\n' h h2

lemma joinNl_nil : joinNl [] = [] := rfl

lemma joinNl_single (l : List Char) : joinNl [l] = l := by
  simp [joinNl, List.intercalate]

/-- `joinNl` on a cons with a non-empty tail. -/
lemma joinNl_cons {rest : List (List Char)} (l : List Char) (h : rest ≠ []) :
    joinNl (l :: rest) = l ++ '\n' :: joinNl rest := by
  obtain ⟨r, rs, rfl⟩ := List.exists_cons_of_ne_nil h
  simp [joinNl, List.intercalate, List.intersperse]

/-- `joinNl` over an append of two non-empty blocks. -/
lemma joinNl_append {A B : List (List Char)} (hA : A ≠ []) (hB : B ≠ []) :
    joinNl (A ++ B) = joinNl A ++ '\n' :: joinNl B := by
  induction A with
  | nil => simp at hA
  | cons a A ih =>
      cases A with
      | nil =>
          simp only [List.nil_append, List.singleton_append]
          rw [joinNl_cons a hB, joinNl_single]
      | cons a' A' =>
          rw [List.cons_append, joinNl_cons a (by simp),
            joinNl_cons a (by simp), ih (by simp)]
          simp

lemma pyLStrip_eq_nil_iff {b : List Char} : pyLStrip b = [] ↔ b.all isSpace := by
  simp [pyLStrip, List.dropWhile_eq_nil_iff, List.all_eq_true]

lemma pyRStrip_eq_nil_iff {b : List Char} : pyRStrip b = [] ↔ b.all isSpace := by
  simp [pyRStrip, List.reverse_eq_nil_iff, List.dropWhile_eq_nil_iff,
    List.all_eq_true, List.mem_reverse]

/-- `rstrip` of an append whose right part keeps something. -/
lemma pyRStrip_append_of_ne {b : List Char} (a : List Char)
    (h : pyRStrip b ≠ []) : pyRStrip (a ++ b) = a ++ pyRStrip b := by
  have hd : (b.reverse.dropWhile isSpace).isEmpty = false := by
    rw [List.isEmpty_eq_false]
    intro hcon
    exact h (by simp [pyRStrip, hcon])
  simp [pyRStrip, List.reverse_append, List.dropWhile_append, hd]

/-- `rstrip` of an append whose right part is all whitespace. -/
lemma pyRStrip_append_all {b : List Char} (a : List Char)
    (h : b.all isSpace) : pyRStrip (a ++ b) = pyRStrip a := by
  have hd : b.reverse.dropWhile isSpace = [] := by
    rw [List.dropWhile_eq_nil_iff]
    intro x hx
    exact List.all_eq_true.mp h x (List.mem_reverse.mp hx)
  simp [pyRStrip, List.reverse_append, List.dropWhile_append, hd]

lemma pyRStrip_idem (l : List Char) : pyRStrip (pyRStrip l) = pyRStrip l := by
  simp [pyRStrip, List.dropWhile_idempotent]

lemma pyLStrip_idem (l : List Char) : pyLStrip (pyLStrip l) = pyLStrip l := by
  simp [pyLStrip, List.dropWhile_idempotent]

/-- `rstrip` only looks at the right part after its own `rstrip`. -/
lemma pyRStrip_rstrip_append (a b : List Char) :
    pyRStrip (a ++ b) = pyRStrip (a ++ pyRStrip b) := by
  by_cases h : pyRStrip b = []
  · rw [h, List.append_nil, pyRStrip_append_all a (pyRStrip_eq_nil_iff.mp h)]
  · rw [pyRStrip_append_of_ne a h, pyRStrip_append_of_ne a (by
      rw [pyRStrip_idem]; exact h), pyRStrip_idem]

lemma pyLStrip_append_all {a : List Char} (b : List Char)
    (h : a.all isSpace) : pyLStrip (a ++ b) = pyLStrip b := by
  have hd : a.dropWhile isSpace = [] := by
    rw [List.dropWhile_eq_nil_iff]
    intro x hx
    exact List.all_eq_true.mp h x hx
  simp [pyLStrip, List.dropWhile_append, hd]

lemma pyRStrip_cons_nonws {c : Char} (w : List Char) (h : isSpace c = false) :
    pyRStrip (c :: w) = c :: pyRStrip w := by
  by_cases hw : pyRStrip w = []
  · rw [hw]
    have h2 : pyRStrip ([c] ++ w) = pyRStrip [c] :=
      pyRStrip_append_all [c] (pyRStrip_eq_nil_iff.mp hw)
    have h3 : pyRStrip [c] = [c] := by
      simp [pyRStrip, List.dropWhile, h]
    simpa [h3] using h2
  · simpa using pyRStrip_append_of_ne [c] hw

lemma pyLStrip_cons_ws {c : Char} (w : List Char) (h : isSpace c = true) :
    pyLStrip (c :: w) = pyLStrip w := by
  simp [pyLStrip, List.dropWhile_cons, h]

lemma pyLStrip_cons_nonws {c : Char} (w : List Char) (h : isSpace c = false) :
    pyLStrip (c :: w) = c :: w := by
  simp [pyLStrip, List.dropWhile_cons, h]

/-- The two one-sided strips commute. -/
lemma pyStrip_comm (l : List Char) :
    pyLStrip (pyRStrip l) = pyRStrip (pyLStrip l) := by
  induction l with
  | nil => rfl
  | cons c t ih =>
      by_cases hc : isSpace c = true
      · rw [pyLStrip_cons_ws t hc, ← ih]
        by_cases ht : pyRStrip t = []
        · have h1 : pyRStrip (c :: t) = [] := by
            rw [pyRStrip_eq_nil_iff]
            simp only [List.all_cons, hc, Bool.true_and]
            exact pyRStrip_eq_nil_iff.mp ht
          rw [h1, ht]
        · rw [show c :: t = [c] ++ t from rfl, pyRStrip_append_of_ne [c] ht,
            List.singleton_append, pyLStrip_cons_ws _ hc]
      · have hc2 : isSpace c = false := Bool.eq_false_iff.mpr hc
        rw [pyRStrip_cons_nonws t hc2, pyLStrip_cons_nonws _ hc2,
          pyLStrip_cons_nonws _ hc2, pyRStrip_cons_nonws t hc2]

lemma pyStrip_pyRStrip (l : List Char) : pyStrip (pyRStrip l) = pyStrip l := by
  simp [pyStrip, pyRStrip_idem]

lemma pyStrip_pyLStrip (l : List Char) : pyStrip (pyLStrip l) = pyStrip l := by
  show pyLStrip (pyRStrip (pyLStrip l)) = pyStrip l
  rw [← pyStrip_comm l]
  exact pyLStrip_idem _

lemma pyStrip_eq_nil_iff {l : List Char} : pyStrip l = [] ↔ l.all isSpace := by
  constructor
  · intro h
    have h1 : (pyRStrip l).all isSpace := pyLStrip_eq_nil_iff.mp h
    have h2 : pyRStrip (pyRStrip l) = [] := pyRStrip_eq_nil_iff.mpr h1
    rw [pyRStrip_idem] at h2
    exact pyRStrip_eq_nil_iff.mp h2
  · intro h
    have h2 : pyRStrip l = [] := pyRStrip_eq_nil_iff.mpr h
    show pyLStrip (pyRStrip l) = []
    rw [h2]
    rfl

lemma pyStrip_idem (l : List Char) : pyStrip (pyStrip l) = pyStrip l := by
  show pyStrip (pyLStrip (pyRStrip l)) = pyStrip l
  rw [pyStrip_pyLStrip, pyStrip_pyRStrip]

/-! ## Pass 1: relating the character-level search to the line structure -/

lemma p1After_nil : p1After [] = false := rfl

/-- No pass-1 match inside a single line. -/
lemma p1Search_no_nl {t : List Char} (h : '\n' ∉ t) : p1Search t = none := by
  induction t with
  | nil => rfl
  | cons c t ih =>
      have hc : (c = '\n') = False := by
        simp only [eq_iff_iff, iff_false]
        intro hcon
        exact h (by simp [hcon])
      simp only [p1Search, hc, decide_False, Bool.false_and,
        Bool.false_eq_true, if_false]
      rw [ih (fun hm => h (List.mem_cons_of_mem _ hm))]
      rfl

/-- A pass-1 match right at the first line boundary. -/
lemma p1Search_append_pos {u : List Char} (l : List Char) (h : '\n' ∉ l)
    (hp : p1After u = true) : p1Search (l ++ '\n' :: u) = some l.length := by
  induction l with
  | nil => simp [p1Search, hp]
  | cons c l ih =>
      have hc : (c = '\n') = False := by
        simp only [eq_iff_iff, iff_false]
        intro hcon
        exact h (by simp [hcon])
      simp only [List.cons_append, p1Search, hc, decide_False, Bool.false_and,
        Bool.false_eq_true, if_false, List.append_eq]
      rw [ih (fun hm => h (List.mem_cons_of_mem _ hm))]
      rfl

/-- No pass-1 match at the first line boundary: the search continues in the
tail with shifted positions. -/
lemma p1Search_append_neg {u : List Char} (l : List Char) (h : '\n' ∉ l)
    (hp : p1After u = false) :
    p1Search (l ++ '\n' :: u)
      = (p1Search u).map (fun i => l.length + 1 + i) := by
  induction l with
  | nil =>
      simp only [List.nil_append, p1Search, decide_True, hp, Bool.and_false,
        Bool.false_eq_true, if_false, List.length_nil]
      cases p1Search u <;> simp <;> omega
  | cons c l ih =>
      have hc : (c = '\n') = False := by
        simp only [eq_iff_iff, iff_false]
        intro hcon
        exact h (by simp [hcon])
      simp only [List.cons_append, p1Search, hc, decide_False, Bool.false_and,
        Bool.false_eq_true, if_false, List.append_eq]
      rw [ih (fun hm => h (List.mem_cons_of_mem _ hm))]
      cases p1Search u <;> simp <;> omega

/-- The character-level pass-1 search against its line-level view: either
both miss, or both hit, at a text position that is a line boundary: the
prefix cut by the search is the join of the first `k` lines. -/
lemma p1_corr : ∀ ls : List (List Char), (∀ l ∈ ls, '\n' ∉ l) →
    (p1Search (joinNl ls) = none ∧ minP1 ls = none) ∨
    (∃ i k, p1Search (joinNl ls) = some i ∧ minP1 ls = some k ∧ 1 ≤ k ∧
      k < ls.length ∧ (joinNl ls).take i = joinNl (ls.take k)) := by
  intro ls
  induction ls with
  | nil => exact fun _ => Or.inl ⟨rfl, rfl⟩
  | cons l rest ih =>
      intro hwf
      have hwl : '\n' ∉ l := hwf l (List.mem_cons_self _ _)
      have hwr : ∀ x ∈ rest, '\n' ∉ x :=
        fun x hx => hwf x (List.mem_cons_of_mem _ hx)
      cases rest with
      | nil =>
          left
          exact ⟨by simpa [joinNl_single] using p1Search_no_nl hwl, rfl⟩
      | cons r rest' =>
          have hRne : (r :: rest') ≠ [] := by simp
          rw [joinNl_cons l hRne]
          by_cases hp : p1After (joinNl (r :: rest')) = true
          · right
            refine ⟨l.length, 1, p1Search_append_pos l hwl hp, ?_, le_refl 1,
              by simp, ?_⟩
            · simp [minP1, minP1Tail, hp]
            · rw [List.take_left, List.take_succ_cons, List.take_zero,
                joinNl_single]
          · have hp' : p1After (joinNl (r :: rest')) = false :=
              Bool.eq_false_iff.mpr hp
            have hmt : minP1Tail (r :: rest')
                = (minP1Tail rest').map (· + 1) := by
              simp [minP1Tail, hp']
            rcases ih hwr with ⟨h1, h2⟩ | ⟨i, k, hi, hk, hk1, hklen, htake⟩
            · left
              constructor
              · rw [p1Search_append_neg l hwl hp', h1]; rfl
              · have : minP1Tail rest' = none := by
                  simpa [minP1] using h2
                simp [minP1, hmt, this]
            · right
              have hkm : minP1Tail rest' = some (k - 1) ∧ 1 ≤ k := by
                constructor
                · have hm2 : minP1 (r :: rest')
                      = (minP1Tail rest').map (· + 1) := rfl
                  rcases hmt' : minP1Tail rest' with _ | j
                  · rw [hm2, hmt'] at hk; simp at hk
                  · rw [hm2, hmt'] at hk
                    simp only [Option.map_some'] at hk
                    injection hk with hk
                    simp [← hk]
                · exact hk1
              refine ⟨l.length + 1 + i, k + 1, ?_, ?_, by omega, by
                simp only [List.length_cons] at hklen ⊢; omega, ?_⟩
              · rw [p1Search_append_neg l hwl hp', hi]; rfl
              · simp only [minP1, hmt, hkm.1, Option.map_some']
                congr 1
                omega
              · have h3 : (l ++ '\n' :: joinNl (r :: rest')).take (l.length + (1 + i))
                    = l ++ ('\n' :: joinNl (r :: rest')).take (1 + i) :=
                  List.take_append (1 + i)
                rw [Nat.add_assoc, h3]
                have htk : (r :: rest').take k ≠ [] := by
                  cases k with
                  | zero => omega
                  | succ k' => simp [List.take_succ_cons]
                rw [show (1 + i) = i + 1 from by omega, List.take_succ_cons,
                  htake, List.take_succ_cons, joinNl_cons _ htk]

/-- Minimality facts from a line-level pass-1 hit (tail form). -/
lemma minP1Tail_some : ∀ {ls : List (List Char)} {j : ℕ},
    minP1Tail ls = some j →
    p1After (joinNl (ls.drop j)) = true ∧
      ∀ j' < j, p1After (joinNl (ls.drop j')) = false := by
  intro ls
  induction ls with
  | nil => intro j h; simp [minP1Tail] at h
  | cons l rest ih =>
      intro j h
      by_cases hp : p1After (joinNl (l :: rest)) = true
      · simp only [minP1Tail, hp, if_true] at h
        injection h with h
        subst h
        exact ⟨by simpa using hp, by omega⟩
      · have hp' : p1After (joinNl (l :: rest)) = false :=
          Bool.eq_false_iff.mpr hp
        simp only [minP1Tail, hp', Bool.false_eq_true, if_false] at h
        rcases hmt : minP1Tail rest with _ | j'
        · rw [hmt] at h; simp at h
        · rw [hmt] at h
          simp only [Option.map_some'] at h
          injection h with h
          subst h
          obtain ⟨ha, hb⟩ := ih hmt
          refine ⟨by simpa using ha, ?_⟩
          intro j'' hj''
          cases j'' with
          | zero => simpa using hp'
          | succ m => simpa using hb m (by omega)

/-- A line-level pass-1 miss (tail form) means no suffix matches. -/
lemma minP1Tail_none : ∀ {ls : List (List Char)},
    minP1Tail ls = none → ∀ j, p1After (joinNl (ls.drop j)) = false := by
  intro ls
  induction ls with
  | nil => intro _ j; simp [joinNl_nil, p1After_nil]
  | cons l rest ih =>
      intro h j
      by_cases hp : p1After (joinNl (l :: rest)) = true
      · simp [minP1Tail, hp] at h
      · have hp' : p1After (joinNl (l :: rest)) = false :=
          Bool.eq_false_iff.mpr hp
        simp only [minP1Tail, hp', Bool.false_eq_true, if_false] at h
        have hrest : minP1Tail rest = none := by
          rcases hmt : minP1Tail rest with _ | j'
          · rfl
          · rw [hmt] at h; simp at h
        cases j with
        | zero => simpa using hp'
        | succ m => simpa using ih hrest m

/-- Converse: if no suffix matches, the line-level search misses. -/
lemma minP1Tail_eq_none : ∀ {ls : List (List Char)},
    (∀ j, p1After (joinNl (ls.drop j)) = false) → minP1Tail ls = none := by
  intro ls
  induction ls with
  | nil => intro _; rfl
  | cons l rest ih =>
      intro h
      have h0 : p1After (joinNl (l :: rest)) = false := by simpa using h 0
      simp only [minP1Tail, h0, Bool.false_eq_true, if_false]
      rw [ih (fun j => by simpa using h (j + 1))]
      rfl

/-- Minimality facts of `minP1`: the hit is at a line index `1 ≤ k` within
the list, and no earlier positive index matches. -/
lemma minP1_some {ls : List (List Char)} {k : ℕ} (h : minP1 ls = some k) :
    1 ≤ k ∧ k < ls.length ∧ p1After (joinNl (ls.drop k)) = true ∧
      ∀ j, 1 ≤ j → j < k → p1After (joinNl (ls.drop j)) = false := by
  cases ls with
  | nil => simp [minP1] at h
  | cons l rest =>
      rcases hmt : minP1Tail rest with _ | j
      · simp [minP1, hmt] at h
      · have hm2 : minP1 (l :: rest) = (minP1Tail rest).map (· + 1) := rfl
        rw [hm2, hmt] at h
        simp only [Option.map_some'] at h
        injection h with h
        subst h
        obtain ⟨ha, hb⟩ := minP1Tail_some hmt
        refine ⟨by omega, ?_, by simpa using ha, ?_⟩
        · have : rest.drop j ≠ [] := by
            intro hcon
            rw [hcon] at ha
            simp [joinNl_nil, p1After_nil] at ha
          have := List.length_lt_of_drop_ne_nil this
          simpa using Nat.succ_lt_succ this
        · intro j' h1 h2
          cases j' with
          | zero => omega
          | succ m => simpa using hb m (by omega)

/-- A `minP1` miss means no positive line index matches. -/
lemma minP1_none {ls : List (List Char)} (h : minP1 ls = none) :
    ∀ j, 1 ≤ j → p1After (joinNl (ls.drop j)) = false := by
  cases ls with
  | nil => intro j _; simp [joinNl_nil, p1After_nil]
  | cons l rest =>
      have hrest : minP1Tail rest = none := by
        rcases hmt : minP1Tail rest with _ | j'
        · rfl
        · simp [minP1, hmt] at h
      intro j hj
      cases j with
      | zero => omega
      | succ m => simpa using minP1Tail_none hrest m

/-- Converse: if no positive line index matches, `minP1` misses. -/
lemma minP1_eq_none {ls : List (List Char)}
    (h : ∀ j, 1 ≤ j → p1After (joinNl (ls.drop j)) = false) :
    minP1 ls = none := by
  cases ls with
  | nil => rfl
  | cons l rest =>
      simp only [minP1]
      rw [minP1Tail_eq_none (fun j => by simpa using h (j + 1) (by omega))]
      rfl

/-! ## Properties of `p1After` and the line markers -/

/-- `lstrip` of an append whose left part keeps something. -/
lemma pyLStrip_append_of_ne {a : List Char} (b : List Char)
    (h : pyLStrip a ≠ []) : pyLStrip (a ++ b) = pyLStrip a ++ b := by
  have hd : (a.dropWhile isSpace).isEmpty = false := by
    rw [List.isEmpty_eq_false]
    exact h
  simp [pyLStrip, List.dropWhile_append, hd]

/-- The head surviving `lstrip` is not whitespace. -/
lemma head_pyLStrip_not_space {l w : List Char} {c : Char}
    (h : pyLStrip l = c :: w) : isSpace c = false := by
  by_contra hcon
  have hc : isSpace c = true := by
    cases hcs : isSpace c
    · exact absurd hcs hcon
    · rfl
  have h2 : pyLStrip (pyLStrip l) = pyLStrip l := pyLStrip_idem l
  rw [h, pyLStrip_cons_ws _ hc] at h2
  have := congrArg List.length h2
  have hle : (pyLStrip w).length ≤ w.length :=
    (List.dropWhile_suffix isSpace).length_le
  simp at this
  omega

/-- A leading all-whitespace block is invisible to the pass-1 matcher. -/
lemma p1After_ws_prefix {w : List Char} (v : List Char) (h : w.all isSpace) :
    p1After (w ++ v) = p1After v := by
  have hd : (w ++ v).dropWhile isSpace = v.dropWhile isSpace :=
    pyLStrip_append_all v h
  unfold p1After
  rw [hd]

/-- After a pass-1 match, the first line of the matched suffix strips to
nothing or starts with `On` — never with an Outlook header. -/
lemma outlook_false_of_p1After {r1 : List Char} {rest' : List (List Char)}
    (h : p1After (joinNl (r1 :: rest')) = true) :
    outlookHeaderNext (pyStrip r1) = false := by
  by_cases hws : r1.all isSpace = true
  · rw [pyStrip_eq_nil_iff.mpr hws]
    rfl
  · have hls : pyLStrip r1 ≠ [] := fun hcon => hws (pyLStrip_eq_nil_iff.mp hcon)
    obtain ⟨c0, w, hc0⟩ := List.exists_cons_of_ne_nil hls
    have hc0ws : isSpace c0 = false := head_pyLStrip_not_space hc0
    -- the scrutinee of the pass-1 matcher starts with `c0`
    have hu : ∃ z, (joinNl (r1 :: rest')).dropWhile isSpace = c0 :: z := by
      cases rest' with
      | nil =>
          exact ⟨w, by simpa [joinNl_single, pyLStrip] using hc0⟩
      | cons r2 rest2 =>
          rw [joinNl_cons r1 (by simp)]
          refine ⟨w ++ '\n' :: joinNl (r2 :: rest2), ?_⟩
          have := pyLStrip_append_of_ne ('\n' :: joinNl (r2 :: rest2)) hls
          rw [hc0] at this
          simpa [pyLStrip] using this
    obtain ⟨z, hz⟩ := hu
    have h1 : ciEq c0 'O' = true := by
      unfold p1After at h
      rw [hz] at h
      cases z with
      | nil => simp at h
      | cons n1 z2 =>
          cases z2 with
          | nil => simp at h
          | cons c2 z3 =>
              simp only [Bool.and_eq_true] at h
              exact h.1.1.1
    have hlow : c0.toLower = 'o' := by
      have := h1
      simp only [ciEq, beq_iff_eq] at this
      simpa using this
    -- the stripped line therefore starts with `c0`
    have hstrip : ∃ w2, pyStrip r1 = c0 :: w2 := by
      refine ⟨pyRStrip w, ?_⟩
      rw [pyStrip, pyStrip_comm, hc0, pyRStrip_cons_nonws w hc0ws]
    obtain ⟨w2, hstrip⟩ := hstrip
    rw [hstrip]
    simp [outlookHeaderNext, startsWithCI, ciEq, hlow]

/-- With no wrapped `On … wrote:` match anywhere below, the spec-level cut
is exactly pass 2. -/
lemma specCutAux_eq_pass2Cut : ∀ (ls : List (List Char)) (b : Bool),
    (b = true → p1After (joinNl ls) = false) →
    (∀ j, 1 ≤ j → p1After (joinNl (ls.drop j)) = false) →
    specCutAux b ls = pass2Cut ls := by
  intro ls
  induction ls with
  | nil => intro b _ _; rfl
  | cons l rest ih =>
      intro b h1 h2
      have hb : (b && p1After (joinNl (l :: rest))) = false := by
        cases hbv : b
        · rfl
        · simp [h1 hbv]
      simp only [specCutAux, pass2Cut, hb, Bool.or_false]
      by_cases hm : lineMarker l rest = true
      · simp [hm]
      · have hm2 : lineMarker l rest = false := Bool.eq_false_iff.mpr hm
        simp only [hm2, Bool.false_eq_true, if_false]
        rw [ih true (fun _ => by simpa using h2 1 (by omega))
          (fun j hj => by simpa using h2 (j + 1) (by omega))]

/-- The spec-level cut never exceeds the number of lines. -/
lemma specCutAux_le_length : ∀ (ls : List (List Char)) (b : Bool),
    specCutAux b ls ≤ ls.length := by
  intro ls
  induction ls with
  | nil => intro b; simp [specCutAux]
  | cons l rest ih =>
      intro b
      simp only [specCutAux, List.length_cons]
      by_cases hm : (lineMarker l rest ||
          (b && p1After (joinNl (l :: rest)))) = true
      · simp [hm]
      · rw [if_neg (by simpa using hm)]
        have := ih true
        omega

/-- No marker strictly before the spec-level cut. -/
lemma specCutAux_min : ∀ (ls : List (List Char)) (b : Bool) (j : ℕ),
    j < specCutAux b ls →
    (∀ line rest, ls.drop j = line :: rest → lineMarker line rest = false) ∧
    ((1 ≤ j ∨ b = true) → p1After (joinNl (ls.drop j)) = false) := by
  intro ls
  induction ls with
  | nil => intro b j h; simp [specCutAux] at h
  | cons l rest ih =>
      intro b j h
      by_cases hm : (lineMarker l rest ||
          (b && p1After (joinNl (l :: rest)))) = true
      · simp [specCutAux, hm] at h
      · have hm2 := hm
        simp only [Bool.or_eq_true, not_or, Bool.and_eq_true, not_and] at hm2
        cases j with
        | zero =>
            refine ⟨?_, ?_⟩
            · intro line r hline
              simp only [List.drop_zero] at hline
              injection hline with e1 e2
              subst e1; subst e2
              exact Bool.eq_false_iff.mpr hm2.1
            · intro hj
              rcases hj with hj | hj
              · omega
              · cases hpv : p1After (joinNl (l :: rest))
                · exact hpv
                · exact absurd hpv (hm2.2 hj)
        | succ m =>
            rw [show specCutAux b (l :: rest)
                = 1 + specCutAux true rest from by
              simp only [specCutAux]
              rw [if_neg hm]] at h
            have := ih true m (by omega)
            exact ⟨fun line r hline => this.1 line r (by simpa using hline),
              fun _ => by simpa using this.2 (Or.inr rfl)⟩

/-- Popping behaviour of the trailing-quoted filter on a final element. -/
lemma dropTrailingQuoted_append (X : List (List Char)) (x : List Char) :
    dropTrailingQuoted (X ++ [x])
      = if ((pyStrip x).head? == some '>') then dropTrailingQuoted X
        else X ++ [x] := by
  by_cases hp : ((pyStrip x).head? == some '>') = true
  · simp [dropTrailingQuoted, List.reverse_append, List.dropWhile_cons, hp]
  · have hp2 : ((pyStrip x).head? == some '>') = false := Bool.eq_false_iff.mpr hp
    simp [dropTrailingQuoted, List.reverse_append, List.dropWhile_cons, hp2]

/-- Popping behaviour of the trailing-blank filter on a final element. -/
lemma dropTrailingBlankL_append (X : List (List Char)) (x : List Char) :
    dropTrailingBlankL (X ++ [x])
      = if (pyStrip x).isEmpty then dropTrailingBlankL X else X ++ [x] := by
  by_cases hp : (pyStrip x).isEmpty = true
  · simp [dropTrailingBlankL, List.reverse_append, List.dropWhile_cons, hp]
  · have hp2 : (pyStrip x).isEmpty = false := Bool.eq_false_iff.mpr hp
    simp [dropTrailingBlankL, List.reverse_append, List.dropWhile_cons, hp2]

/-- The two trailing filters only remove a suffix: the result is a
`take` of the input. -/
lemma dropTrailing_take (X : List (List Char)) :
    ∃ q ≤ X.length,
      dropTrailingBlankL (dropTrailingQuoted X) = X.take q := by
  have h1 : dropTrailingQuoted X <+: X := by
    rw [← List.reverse_suffix]
    simpa [dropTrailingQuoted] using
      @List.dropWhile_suffix _ X.reverse
        (fun l => (pyStrip l).head? == some '>')
  have h2 : dropTrailingBlankL (dropTrailingQuoted X) <+: dropTrailingQuoted X := by
    rw [← List.reverse_suffix]
    simpa [dropTrailingBlankL] using
      @List.dropWhile_suffix _ (dropTrailingQuoted X).reverse
        (fun l => (pyStrip l).isEmpty)
  have h3 := h2.trans h1
  refine ⟨(dropTrailingBlankL (dropTrailingQuoted X)).length,
    h3.length_le, ?_⟩
  exact List.prefix_iff_eq_take.mp h3

/-- `cleanLines` cannot tell a right-stripped last line from the original. -/
lemma cleanLines_rstrip_last (A : List (List Char)) (m : List Char) :
    cleanLines (A ++ [pyRStrip m]) = cleanLines (A ++ [m]) := by
  have hs : pyStrip (pyRStrip m) = pyStrip m := pyStrip_pyRStrip m
  unfold cleanLines
  rw [dropTrailingQuoted_append, dropTrailingQuoted_append, hs]
  by_cases hq : ((pyStrip m).head? == some '>') = true
  · rw [if_pos hq, if_pos hq]
  · have hq2 := Bool.eq_false_iff.mpr hq
    rw [if_neg (by simp [hq2]), if_neg (by simp [hq2]),
      dropTrailingBlankL_append, dropTrailingBlankL_append, hs]
    by_cases hb : (pyStrip m).isEmpty = true
    · rw [if_pos hb, if_pos hb]
    · have hb2 := Bool.eq_false_iff.mpr hb
      rw [if_neg (by simp [hb2]), if_neg (by simp [hb2])]
      cases A with
      | nil =>
          simp only [List.nil_append]
          rw [joinNl_single, joinNl_single, pyStrip_pyRStrip]
      | cons a A' =>
          rw [joinNl_append (by simp) (by simp),
            joinNl_append (by simp) (by simp), joinNl_single, joinNl_single]
          have e1 : joinNl (a :: A') ++ '\n' :: pyRStrip m
              = (joinNl (a :: A') ++ ['\n']) ++ pyRStrip m := by simp
          have e2 : joinNl (a :: A') ++ '\n' :: m
              = (joinNl (a :: A') ++ ['\n']) ++ m := by simp
          rw [e1, e2]
          unfold pyStrip
          rw [← pyRStrip_rstrip_append]

/-- The wrapped-marker flag is irrelevant when the head suffix has no
pass-1 match. -/
lemma specCutAux_flag {x : List Char} {xs : List (List Char)}
    (h : p1After (joinNl (x :: xs)) = false) (b b' : Bool) :
    specCutAux b (x :: xs) = specCutAux b' (x :: xs) := by
  simp [specCutAux, h]

/-- Lines just before the first pass-1 hit are not all-whitespace (else the
hit would have been earlier). -/
lemma not_ws_before_p1 {ls : List (List Char)} {k : ℕ} (hk2 : 2 ≤ k)
    (hklen : k < ls.length)
    (hmin : ∀ j, 1 ≤ j → j < k → p1After (joinNl (ls.drop j)) = false)
    (hp1 : p1After (joinNl (ls.drop k)) = true) :
    (ls.getD (k - 1) []).all isSpace = false := by
  cases hws : (ls.getD (k - 1) []).all isSpace
  · rfl
  · exfalso
    have hlt : k - 1 < ls.length := by omega
    have hdrop : ls.drop (k - 1) = ls.getD (k - 1) [] :: ls.drop k := by
      rw [List.drop_eq_getElem_cons hlt, show k - 1 + 1 = k from by omega,
        List.getD_eq_getElem ls [] hlt]
    have hdk : ls.drop k ≠ [] := by
      intro hcon
      rw [hcon] at hp1
      simpa [joinNl_nil, p1After_nil] using hp1
    have hjoin : joinNl (ls.drop (k - 1))
        = (ls.getD (k - 1) [] ++ ['\n']) ++ joinNl (ls.drop k) := by
      rw [hdrop, joinNl_cons _ hdk]
      simp
    have hwsall : (ls.getD (k - 1) [] ++ ['\n']).all isSpace = true := by
      rw [List.all_append, hws]
      rfl
    have := hmin (k - 1) (by omega) (by omega)
    rw [hjoin, p1After_ws_prefix _ hwsall, hp1] at this
    exact absurd this (by simp)

/-- A positive take of a non-empty list is non-empty. -/
lemma take_pos_ne_nil {α : Type} {ls : List α} {n : ℕ} (h : 1 ≤ n)
    (h2 : ls ≠ []) : ls.take n ≠ [] := by
  cases ls with
  | nil => exact absurd rfl h2
  | cons a l =>
      cases n with
      | zero => omega
      | succ m => simp [List.take_succ_cons]

/-- The core cut correspondence: with the first pass-1 hit at line `k`, the
pass-2 cut of the right-stripped first `k` lines and the spec-level cut of
the full line list select the same prefix — or both run to the end, where
the kept lines differ only in the right-stripped last line. -/
lemma spec_code_cut : ∀ (ls : List (List Char)) (k : ℕ),
    1 ≤ k → k < ls.length →
    (∀ j, 1 ≤ j → j < k → p1After (joinNl (ls.drop j)) = false) →
    p1After (joinNl (ls.drop k)) = true →
    ((ls.take (k - 1) ++ [pyRStrip (ls.getD (k - 1) [])]).take
        (pass2Cut (ls.take (k - 1) ++ [pyRStrip (ls.getD (k - 1) [])]))
      = ls.take (specCutAux false ls)) ∨
    (pass2Cut (ls.take (k - 1) ++ [pyRStrip (ls.getD (k - 1) [])])
        = (ls.take (k - 1) ++ [pyRStrip (ls.getD (k - 1) [])]).length ∧
      specCutAux false ls = k) := by
  intro ls
  induction ls with
  | nil => intro k _ hlen; simp at hlen
  | cons l rest ih =>
      intro k hk1 hklen hmin hp1
      by_cases hke : k = 1
      · subst hke
        simp only [Nat.sub_self, List.take_zero, List.nil_append,
          List.getD_cons_zero]
        obtain ⟨r, rest', rfl⟩ : ∃ r rest', rest = r :: rest' := by
          cases rest with
          | nil => simp at hklen
          | cons r rest' => exact ⟨r, rest', rfl⟩
        have hp1' : p1After (joinNl (r :: rest')) = true := by
          simpa using hp1
        have hsame : lineMarker (pyRStrip l) [] = lineMarker l (r :: rest') := by
          simp only [lineMarker, pyStrip_pyRStrip,
            outlook_false_of_p1After hp1', Bool.and_false]
        by_cases hb0 : lineMarker l (r :: rest') = true
        · left
          rw [show pass2Cut [pyRStrip l] = 0 from by
              simp [pass2Cut, hsame, hb0],
            show specCutAux false (l :: r :: rest') = 0 from by
              simp [specCutAux, hb0]]
          simp
        · right
          have hb0' : lineMarker l (r :: rest') = false := Bool.eq_false_iff.mpr hb0
          constructor
          · simp [pass2Cut, hsame, hb0']
          · rw [show specCutAux false (l :: r :: rest')
                = 1 + specCutAux true (r :: rest') from by
              simp [specCutAux, hb0']]
            rw [show specCutAux true (r :: rest') = 0 from by
              simp [specCutAux, hp1']]
      · have hk2 : 2 ≤ k := by omega
        obtain ⟨r, rest', rfl⟩ : ∃ r rest', rest = r :: rest' := by
          cases rest with
          | nil => simp at hklen; omega
          | cons r rest' => exact ⟨r, rest', rfl⟩
        -- reshape the stripped prefix as `l ::` of the tail version
        have hshape : (l :: r :: rest').take (k - 1)
              ++ [pyRStrip ((l :: r :: rest').getD (k - 1) [])]
            = l :: ((r :: rest').take (k - 2)
              ++ [pyRStrip ((r :: rest').getD (k - 2) [])]) := by
          have e1 : k - 1 = (k - 2) + 1 := by omega
          rw [e1, List.take_succ_cons, List.getD_cons_succ]
          simp
        have hmin' : ∀ j, 1 ≤ j → j < k - 1 →
            p1After (joinNl ((r :: rest').drop j)) = false := by
          intro j h1 h2
          simpa using hmin (j + 1) (by omega) (by omega)
        have hp1'' : p1After (joinNl ((r :: rest').drop (k - 1))) = true := by
          have e1 : k = (k - 1) + 1 := by omega
          rw [e1] at hp1
          simpa using hp1
        have hflat : p1After (joinNl (r :: rest')) = false := by
          simpa using hmin 1 (by omega) (by omega)
        -- the head marker sees the same stripped next line in both lists
        have hhead : lineMarker l ((r :: rest').take (k - 2)
              ++ [pyRStrip ((r :: rest').getD (k - 2) [])])
            = lineMarker l (r :: rest') := by
          by_cases hke2 : k = 2
          · subst hke2
            simp [lineMarker, pyStrip_pyRStrip]
          · have hk3 : 3 ≤ k := by omega
            have e2 : k - 2 = (k - 3) + 1 := by omega
            rw [e2, List.take_succ_cons]
            simp [lineMarker]
        by_cases hb0 : lineMarker l (r :: rest') = true
        · left
          rw [hshape,
            show pass2Cut (l :: ((r :: rest').take (k - 2)
                ++ [pyRStrip ((r :: rest').getD (k - 2) [])])) = 0 from by
              simp only [pass2Cut]
              rw [hhead, hb0]
              simp,
            show specCutAux false (l :: r :: rest') = 0 from by
              simp [specCutAux, hb0]]
          simp
        · have hb0' : lineMarker l (r :: rest') = false :=
            Bool.eq_false_iff.mpr hb0
          have hcode : pass2Cut (l :: ((r :: rest').take (k - 2)
                ++ [pyRStrip ((r :: rest').getD (k - 2) [])]))
              = 1 + pass2Cut ((r :: rest').take (k - 2)
                ++ [pyRStrip ((r :: rest').getD (k - 2) [])]) := by
            simp only [pass2Cut]
            rw [hhead, hb0']
            simp
          have hspec : specCutAux false (l :: r :: rest')
              = 1 + specCutAux false (r :: rest') := by
            rw [show specCutAux false (l :: r :: rest')
                = 1 + specCutAux true (r :: rest') from by
              simp [specCutAux, hb0']]
            rw [specCutAux_flag hflat true false]
          have hklen' : k - 1 < (r :: rest').length := by
            simp only [List.length_cons] at hklen ⊢
            omega
          rcases ih (k - 1) (by omega) hklen' hmin' hp1'' with hd1 | ⟨hd2a, hd2b⟩
          · left
            rw [hshape, hcode, hspec]
            have e3 : k - 1 - 1 = k - 2 := by omega
            rw [e3] at hd1
            rw [show 1 + pass2Cut ((r :: rest').take (k - 2)
                  ++ [pyRStrip ((r :: rest').getD (k - 2) [])])
                = pass2Cut ((r :: rest').take (k - 2)
                  ++ [pyRStrip ((r :: rest').getD (k - 2) [])]) + 1 from by omega,
              show 1 + specCutAux false (r :: rest')
                = specCutAux false (r :: rest') + 1 from by omega,
              List.take_succ_cons, List.take_succ_cons, hd1]
          · right
            have e3 : k - 1 - 1 = k - 2 := by omega
            rw [e3] at hd2a
            constructor
            · rw [hshape, hcode, hd2a]
              simp [Nat.add_comm]
            · rw [hspec, hd2b]
              omega

/-- `rstrip` removes characters, it adds none: no newline can appear. -/
lemma nl_not_mem_pyRStrip {m : List Char} (h : '\n' ∉ m) :
    '\n' ∉ pyRStrip m := by
  intro hc
  apply h
  have h2 : '\n' ∈ m.reverse.dropWhile isSpace := by
    simpa [pyRStrip] using hc
  have h3 : '\n' ∈ m.reverse :=
    (List.dropWhile_suffix isSpace).sublist.subset h2
  simpa using h3

/-- Splitting the right-stripped join of the first `k + 1` lines keeps the
first `k` lines and right-strips the last (when that cannot bleed across a
line boundary). -/
lemma split_rstrip_take (ls : List (List Char)) (k : ℕ)
    (hwf : ∀ l ∈ ls, '\n' ∉ l) (hklen : k < ls.length)
    (hws : k = 0 ∨ (ls.getD k []).all isSpace = false) :
    splitNl (pyRStrip (joinNl (ls.take (k + 1))))
      = ls.take k ++ [pyRStrip (ls.getD k [])] := by
  have hmem : ls.getD k [] ∈ ls := by
    rw [List.getD_eq_getElem ls [] hklen]
    exact List.getElem_mem hklen
  have hnl : '\n' ∉ ls.getD k [] := hwf _ hmem
  have htake : ls.take (k + 1) = ls.take k ++ [ls.getD k []] := by
    rw [List.take_succ, List.getElem?_eq_getElem hklen,
      List.getD_eq_getElem ls [] hklen]
    rfl
  by_cases hk0 : k = 0
  · subst hk0
    rw [htake]
    simp only [List.take_zero, List.nil_append]
    rw [joinNl_single]
    have h1 : ∀ l ∈ [pyRStrip (ls.getD 0 [])], '\n' ∉ l := by
      intro l hl
      simp only [List.mem_singleton] at hl
      subst hl
      exact nl_not_mem_pyRStrip hnl
    have h2 := splitNl_joinNl h1 (by simp)
    rw [joinNl_single] at h2
    exact h2
  · have hws' : (ls.getD k []).all isSpace = false := by
      rcases hws with h | h
      · exact absurd h hk0
      · exact h
    have hrne : pyRStrip (ls.getD k []) ≠ [] := by
      intro hcon
      rw [pyRStrip_eq_nil_iff.mp hcon] at hws'
      simp at hws'
    have htne : ls.take k ≠ [] := by
      intro hcon
      have := congrArg List.length hcon
      simp only [List.length_take, List.length_nil] at this
      omega
    rw [htake, joinNl_append htne (by simp), joinNl_single]
    have e1 : joinNl (ls.take k) ++ '\n' :: ls.getD k []
        = (joinNl (ls.take k) ++ ['\n']) ++ ls.getD k [] := by simp
    rw [e1, pyRStrip_append_of_ne _ hrne]
    have e2 : (joinNl (ls.take k) ++ ['\n']) ++ pyRStrip (ls.getD k [])
        = joinNl (ls.take k ++ [pyRStrip (ls.getD k [])]) := by
      rw [joinNl_append htne (by simp), joinNl_single]
      simp
    have hall : ∀ l ∈ ls.take k ++ [pyRStrip (ls.getD k [])], '\n' ∉ l := by
      intro l hl
      rcases List.mem_append.mp hl with h | h
      · exact hwf l (List.mem_of_mem_take h)
      · simp only [List.mem_singleton] at h
        subst h
        exact nl_not_mem_pyRStrip hnl
    rw [e2, splitNl_joinNl hall (by simp)]

/-- `strip_email_quotes` on non-empty input when pass 1 misses. -/
lemma strip_eq_of_p1_none {t : List Char} (h : t.isEmpty = false)
    (hp : p1Search t = none) :
    strip_email_quotes t
      = cleanLines ((splitNl t).take (pass2Cut (splitNl t))) := by
  unfold strip_email_quotes
  rw [if_neg (by simp [h]), hp]

/-- `strip_email_quotes` on non-empty input when pass 1 hits at `i`. -/
lemma strip_eq_of_p1_some {t : List Char} {i : ℕ} (h : t.isEmpty = false)
    (hp : p1Search t = some i) :
    strip_email_quotes t
      = cleanLines ((splitNl (pyRStrip (t.take i))).take
          (pass2Cut (splitNl (pyRStrip (t.take i))))) := by
  unfold strip_email_quotes
  rw [if_neg (by simp [h]), hp]

/-- The spec-level function on non-empty input. -/
lemma strip_spec_eq {t : List Char} (h : t.isEmpty = false) :
    strip_email_quotes_spec t
      = cleanLines ((splitNl t).take (specCutAux false (splitNl t))) := by
  unfold strip_email_quotes_spec
  rw [if_neg (by simp [h])]

/-- The code equals its amended spec-level reading on every input. -/
lemma strip_eq_spec :
    ∀ t : List Char, strip_email_quotes t = strip_email_quotes_spec t := by
  intro t
  by_cases hemp : t.isEmpty = true
  · unfold strip_email_quotes strip_email_quotes_spec
    rw [if_pos hemp, if_pos hemp]
  · have hemp' : t.isEmpty = false := Bool.eq_false_iff.mpr hemp
    have hwf : ∀ l ∈ splitNl t, '\n' ∉ l := nl_not_mem_splitNl t
    rcases p1_corr (splitNl t) hwf with ⟨h1, h2⟩ |
      ⟨i, k, hi, hk, hk1, hklen, htakei⟩
    · rw [joinNl_splitNl] at h1
      rw [strip_eq_of_p1_none hemp' h1, strip_spec_eq hemp',
        specCutAux_eq_pass2Cut (splitNl t) false
          (fun hcon => absurd hcon (by simp))
          (fun j hj => minP1_none h2 j hj)]
    · rw [joinNl_splitNl] at hi htakei
      obtain ⟨hk1', hklen', hp1, hmin⟩ := minP1_some hk
      obtain ⟨k', rfl⟩ : ∃ k', k = k' + 1 := ⟨k - 1, by omega⟩
      have hlt : k' < (splitNl t).length := by omega
      rw [strip_eq_of_p1_some hemp' hi, strip_spec_eq hemp', htakei]
      have hsplit := split_rstrip_take (splitNl t) k' hwf hlt (by
        by_cases h0 : k' = 0
        · exact Or.inl h0
        · refine Or.inr ?_
          have := @not_ws_before_p1 (splitNl t) (k' + 1) (by omega)
            hklen' hmin hp1
          simpa using this)
      rw [hsplit]
      have hcut := spec_code_cut (splitNl t) (k' + 1) (by omega)
        hklen' hmin hp1
      simp only [Nat.add_sub_cancel] at hcut
      rcases hcut with hcut | ⟨hc1, hc2⟩
      · rw [hcut]
      · rw [hc1, List.take_length, hc2]
        have htake : (splitNl t).take (k' + 1)
            = (splitNl t).take k' ++ [(splitNl t).getD k' []] := by
          rw [List.take_succ, List.getElem?_eq_getElem hlt,
            List.getD_eq_getElem _ [] hlt]
          rfl
        rw [htake]
        exact cleanLines_rstrip_last _ _

/-- **C4** (corrected).  `strip_email_quotes` removes, from the first
quote-marker line on, everything after it — a marker being a per-line
`On … wrote:`, an `-----Original Message-----` separator, a `From:` line
followed by a `Sent/Date/To/Subject:` header line, a 5+ `[_-=]` separator
line, or a wrapped multi-line `On … wrote:` block, the last only when a
newline precedes it — then removes trailing `'>'`-quoted lines and then
trailing blank lines; `None` and empty input give the empty string. -/
theorem strip_email_quotes_amended :
    (∀ t : List Char, strip_email_quotes t = strip_email_quotes_spec t) ∧
    strip_email_quotes_opt none = [] ∧ strip_email_quotes [] = [] :=
  ⟨strip_eq_spec, rfl, rfl⟩

/-- **C4** counterexample to the literal claim: a wrapped `On … wrote:`
block starting on the very first line, with no newline before it, is kept in
full by the code, while the claim as written removes it. -/
theorem strip_email_quotes_claim_counterexample :
    strip_email_quotes ("On Mon,\nBob wrote:".data)
        ≠ strip_email_quotes_claim ("On Mon,\nBob wrote:".data) ∧
      strip_email_quotes_claim ("On Mon,\nBob wrote:".data) = [] := by
  decide

/-- The head surviving a `dropWhile` fails the predicate. -/
lemma dropWhile_head_not {α : Type} (p : α → Bool) (l : List α) {c : α}
    {r : List α} (h : l.dropWhile p = c :: r) : p c = false := by
  have h2 := List.head?_dropWhile_not p l
  rw [h] at h2
  simpa using h2

/-- `lstrip` removes characters, it adds none: no newline can appear. -/
lemma nl_not_mem_pyLStrip {m : List Char} (h : '\n' ∉ m) :
    '\n' ∉ pyLStrip m := by
  intro hc
  exact h ((List.dropWhile_suffix isSpace).sublist.subset hc)

/-- `strip` removes characters, it adds none: no newline can appear. -/
lemma nl_not_mem_pyStrip {m : List Char} (h : '\n' ∉ m) :
    '\n' ∉ pyStrip m :=
  nl_not_mem_pyLStrip (nl_not_mem_pyRStrip h)

/-- A string is its `rstrip` followed by trailing whitespace. -/
lemma pyRStrip_decomp (u : List Char) :
    ∃ z, u = pyRStrip u ++ z ∧ z.all isSpace = true := by
  refine ⟨(u.reverse.takeWhile isSpace).reverse, ?_, ?_⟩
  · conv_lhs => rw [← u.reverse_reverse,
      ← List.takeWhile_append_dropWhile isSpace u.reverse]
    rw [List.reverse_append]
    rfl
  · rw [List.all_eq_true]
    intro x hx
    exact List.mem_takeWhile_imp (List.mem_reverse.mp hx)

/-- Joining all-whitespace lines gives an all-whitespace string. -/
lemma joinNl_all_ws : ∀ {Y : List (List Char)},
    (∀ l ∈ Y, l.all isSpace = true) → (joinNl Y).all isSpace = true := by
  intro Y
  induction Y with
  | nil => intro _; rfl
  | cons l rest ih =>
      intro h
      cases rest with
      | nil =>
          rw [joinNl_single]
          exact h l (List.mem_cons_self _ _)
      | cons r rest' =>
          rw [joinNl_cons l (by simp), List.all_append]
          refine Bool.and_eq_true_iff.mpr ⟨h l (List.mem_cons_self _ _), ?_⟩
          rw [List.all_cons]
          refine Bool.and_eq_true_iff.mpr ⟨by decide, ?_⟩
          exact ih (fun x hx => h x (List.mem_cons_of_mem _ hx))

/-- `takeWhile` of an append whose left part is all accepted. -/
lemma takeWhile_append_all {α : Type} {p : α → Bool} :
    ∀ {l : List α} (e : List α), l.all p = true →
      (l ++ e).takeWhile p = l ++ e.takeWhile p := by
  intro l
  induction l with
  | nil => intro e _; rfl
  | cons a r ih =>
      intro e h
      rw [List.all_cons, Bool.and_eq_true_iff] at h
      simp only [List.cons_append, List.takeWhile_cons, h.1, if_true]
      rw [ih e h.2]

/-- `takeWhile` of an append whose left part has a rejected element. -/
lemma takeWhile_append_stop {α : Type} {p : α → Bool} :
    ∀ {l : List α} (e : List α), l.all p = false →
      (l ++ e).takeWhile p = l.takeWhile p := by
  intro l
  induction l with
  | nil => intro e h; simp at h
  | cons a r ih =>
      intro e h
      rw [List.all_cons] at h
      cases ha : p a
      · simp [List.takeWhile_cons, ha]
      · rw [ha] at h
        simp only [Bool.true_and] at h
        simp only [List.cons_append, List.takeWhile_cons, ha, if_true]
        rw [ih e h]

/-- `existsSuffix` as an existential over suffixes. -/
lemma existsSuffix_iff {p : List Char → Bool} : ∀ {z : List Char},
    existsSuffix p z = true ↔ ∃ s, s <:+ z ∧ p s = true := by
  intro z
  induction z with
  | nil =>
      constructor
      · intro h
        exact ⟨[], List.suffix_rfl, h⟩
      · intro h
        obtain ⟨s, hs, hp⟩ := h
        rw [List.suffix_nil.mp hs] at hp
        exact hp
  | cons a r ih =>
      constructor
      · intro h
        rcases Bool.or_eq_true_iff.mp (by simpa [existsSuffix] using h) with
          h1 | h1
        · exact ⟨a :: r, List.suffix_rfl, h1⟩
        · obtain ⟨s, hs, hp⟩ := ih.mp h1
          exact ⟨s, hs.trans (List.suffix_cons a r), hp⟩
      · intro h
        obtain ⟨s, hs, hp⟩ := h
        rcases List.suffix_cons_iff.mp hs with h1 | h1
        · subst h1
          simp [existsSuffix, hp]
        · simp [existsSuffix, ih.mpr ⟨s, h1, hp⟩]

/-- Suffixes extend on the right. -/
lemma suffix_append_right {s z e : List Char} (h : s <:+ z) :
    s ++ e <:+ z ++ e := by
  obtain ⟨t, rfl⟩ := h
  exact ⟨t, by simp⟩

/-- Case-insensitive prefixes survive extension on the right. -/
lemma startsWithCI_append : ∀ {p s : List Char} (e : List Char),
    startsWithCI p s = true → startsWithCI p (s ++ e) = true := by
  intro p
  induction p with
  | nil => intro s e _; rfl
  | cons c ps ih =>
      intro s e h
      cases s with
      | nil => simp [startsWithCI] at h
      | cons x xs =>
          simp only [startsWithCI, Bool.and_eq_true] at h
          simp only [List.cons_append, startsWithCI, Bool.and_eq_true]
          exact ⟨h.1, ih e h.2⟩

/-- A case-insensitive prefix needs at least its own length. -/
lemma startsWithCI_length : ∀ {p s : List Char},
    startsWithCI p s = true → p.length ≤ s.length := by
  intro p
  induction p with
  | nil => intro s _; simp
  | cons c ps ih =>
      intro s h
      cases s with
      | nil => simp [startsWithCI] at h
      | cons x xs =>
          simp only [startsWithCI, Bool.and_eq_true] at h
          have := ih h.2
          simp only [List.length_cons]
          omega

/-- `contains` for a member character. -/
lemma contains_nl_iff {l : List Char} : l.contains '\n' = true ↔ '\n' ∈ l := by
  simp [List.contains, List.elem_iff]

/-- Elimination for a `colonTailMulti` match. -/
lemma colonTailMulti_true_elim {d : List Char} (h : colonTailMulti d = true) :
    ∃ rest, d.dropWhile isSpace = ':' :: rest ∧
      ((rest.takeWhile isSpace).contains '\n' || rest.all isSpace) = true := by
  unfold colonTailMulti at h
  split at h
  · rename_i rest heq
    exact ⟨rest, heq, h⟩
  · simp at h

/-- `colonTailMulti` through a known `dropWhile` shape. -/
lemma colonTailMulti_eq (u : List Char) {rest : List Char}
    (h : u.dropWhile isSpace = ':' :: rest) :
    colonTailMulti u
      = ((rest.takeWhile isSpace).contains '\n' || rest.all isSpace) := by
  unfold colonTailMulti
  rw [h]
  rfl

/-- The multi-line colon tail survives extension by a tail that is
all-whitespace or whose leading whitespace holds a newline. -/
lemma colonTailMulti_append {d e : List Char}
    (he : ((e.takeWhile isSpace).contains '\n' || e.all isSpace) = true)
    (h : colonTailMulti d = true) : colonTailMulti (d ++ e) = true := by
  obtain ⟨rest, heq, hcond⟩ := colonTailMulti_true_elim h
  have hne : (d.dropWhile isSpace).isEmpty = false := by rw [heq]; rfl
  have hstep : (d ++ e).dropWhile isSpace = ':' :: (rest ++ e) := by
    rw [List.dropWhile_append, hne]
    simp [heq]
  rw [colonTailMulti_eq (d ++ e) hstep]
  by_cases hra : rest.all isSpace = true
  · rw [takeWhile_append_all e hra]
    rcases Bool.or_eq_true_iff.mp he with h1 | h1
    · refine Bool.or_eq_true_iff.mpr (Or.inl ?_)
      rw [contains_nl_iff]
      exact List.mem_append.mpr (Or.inr (contains_nl_iff.mp h1))
    · refine Bool.or_eq_true_iff.mpr (Or.inr ?_)
      rw [List.all_append, hra, h1]
      rfl
  · have hra2 : rest.all isSpace = false := Bool.eq_false_iff.mpr hra
    have hc : (rest.takeWhile isSpace).contains '\n' = true := by
      rcases Bool.or_eq_true_iff.mp hcond with h1 | h1
      · exact h1
      · exact absurd h1 hra
    rw [takeWhile_append_stop e hra2]
    exact Bool.or_eq_true_iff.mpr (Or.inl hc)

/-- `wroteHereMulti` survives the same extensions. -/
lemma wroteHereMulti_append {s e : List Char}
    (he : ((e.takeWhile isSpace).contains '\n' || e.all isSpace) = true)
    (h : wroteHereMulti s = true) : wroteHereMulti (s ++ e) = true := by
  unfold wroteHereMulti at h ⊢
  rw [Bool.and_eq_true] at h
  obtain ⟨h1, h2⟩ := h
  have hlen : 5 ≤ s.length := by simpa using startsWithCI_length h1
  rw [Bool.and_eq_true]
  refine ⟨startsWithCI_append e h1, ?_⟩
  rw [List.drop_append_of_le_length hlen]
  exact colonTailMulti_append he h2

/-- Elimination for a pass-1 match. -/
lemma p1After_true_elim {u : List Char} (h : p1After u = true) :
    ∃ o n c r1 rest2, u.dropWhile isSpace = o :: n :: c :: r1 :: rest2 ∧
      ciEq o 'O' = true ∧ ciEq n 'n' = true ∧ isSpace c = true ∧
      existsSuffix wroteHereMulti rest2 = true := by
  unfold p1After at h
  split at h
  · rename_i o n c rest heq
    simp only [Bool.and_eq_true] at h
    obtain ⟨⟨⟨h1, h2⟩, h3⟩, h4⟩ := h
    cases rest with
    | nil => simp at h4
    | cons r1 rest2 => exact ⟨o, n, c, r1, rest2, heq, h1, h2, h3, h4⟩
  · simp at h

/-- Introduction for a pass-1 match. -/
lemma p1After_intro {u : List Char} {o n c r1 : Char} {rest2 : List Char}
    (heq : u.dropWhile isSpace = o :: n :: c :: r1 :: rest2)
    (h1 : ciEq o 'O' = true) (h2 : ciEq n 'n' = true) (h3 : isSpace c = true)
    (h4 : existsSuffix wroteHereMulti rest2 = true) : p1After u = true := by
  unfold p1After
  rw [heq]
  show (ciEq o 'O' && ciEq n 'n' && isSpace c &&
      existsSuffix wroteHereMulti rest2) = true
  simp [h1, h2, h3, h4]

/-- A pass-1 match survives extension by a tail that is all-whitespace or
whose leading whitespace holds a newline. -/
lemma p1After_append_tail {u e : List Char}
    (he : ((e.takeWhile isSpace).contains '\n' || e.all isSpace) = true)
    (h : p1After u = true) : p1After (u ++ e) = true := by
  obtain ⟨o, n, c, r1, rest2, heq, h1, h2, h3, h4⟩ := p1After_true_elim h
  have hne : (u.dropWhile isSpace).isEmpty = false := by rw [heq]; rfl
  have hstep : (u ++ e).dropWhile isSpace
      = o :: n :: c :: r1 :: (rest2 ++ e) := by
    rw [List.dropWhile_append, hne]
    simp [heq]
  obtain ⟨s, hs, hp⟩ := existsSuffix_iff.mp h4
  exact p1After_intro hstep h1 h2 h3
    (existsSuffix_iff.mpr ⟨s ++ e, suffix_append_right hs,
      wroteHereMulti_append he hp⟩)

/-- A pass-1 match in the `rstrip` of a string is one in the string. -/
lemma p1After_of_pyRStrip {u : List Char}
    (h : p1After (pyRStrip u) = true) : p1After u = true := by
  obtain ⟨z, hz, hzw⟩ := pyRStrip_decomp u
  rw [hz]
  exact p1After_append_tail (Bool.or_eq_true_iff.mpr (Or.inr hzw)) h

/-- `rstrip` of a line-joined list acts on the last line only, when that
line keeps something. -/
lemma pyRStrip_joinNl_last (A : List (List Char)) (m : List Char)
    (hm : pyRStrip m ≠ []) :
    pyRStrip (joinNl (A ++ [m])) = joinNl (A ++ [pyRStrip m]) := by
  cases A with
  | nil =>
      rw [List.nil_append, List.nil_append, joinNl_single, joinNl_single]
  | cons a A2 =>
      rw [joinNl_append (by simp) (by simp),
        joinNl_append (by simp) (by simp), joinNl_single, joinNl_single]
      have e1 : joinNl (a :: A2) ++ '\n' :: m
          = (joinNl (a :: A2) ++ ['\n']) ++ m := by simp
      have e2 : joinNl (a :: A2) ++ '\n' :: pyRStrip m
          = (joinNl (a :: A2) ++ ['\n']) ++ pyRStrip m := by simp
      rw [e1, e2, pyRStrip_append_of_ne _ hm]

/-- Joining a suffix cut at a line boundary, against the full join. -/
lemma joinNl_drop_take (L : List (List Char)) (j c : ℕ)
    (hj : j < c) (hc : c < L.length) :
    joinNl (L.drop j)
      = joinNl ((L.take c).drop j) ++ '\n' :: joinNl (L.drop c) := by
  have h0 := List.take_append_drop c L
  have hsplit : L.drop j = (L.take c).drop j ++ L.drop c := by
    calc L.drop j = (L.take c ++ L.drop c).drop j :=
          congrArg (List.drop j) h0.symm
    _ = (L.take c).drop j ++ (L.drop c).drop (j - (L.take c).length) :=
          List.drop_append_eq_append_drop
    _ = (L.take c).drop j ++ L.drop c := by
          have hz : j - (L.take c).length = 0 := by
            simp only [List.length_take]
            omega
          rw [hz, List.drop_zero]
  have hA : (L.take c).drop j ≠ [] := by
    intro hcon
    have := congrArg List.length hcon
    simp only [List.length_drop, List.length_take, List.length_nil] at this
    omega
  have hB : L.drop c ≠ [] := by
    intro hcon
    have := congrArg List.length hcon
    simp only [List.length_drop, List.length_nil] at this
    omega
  rw [hsplit, joinNl_append hA hB]

/-- Facts extracted from a cons-shaped `drop`. -/
lemma drop_cons_facts {α : Type} {L : List α} {j : ℕ} {a : α} {r : List α}
    (d : α) (h : L.drop j = a :: r) :
    j < L.length ∧ L.getD j d = a ∧ L.drop (j + 1) = r := by
  have hlen : j < L.length := by
    by_contra hcon
    rw [List.drop_eq_nil_of_le (by omega)] at h
    exact List.noConfusion h
  refine ⟨hlen, ?_, ?_⟩
  · have h0 : (L.drop j)[0]? = L[j]? := by
      rw [List.getElem?_drop, Nat.add_zero]
    rw [h] at h0
    simp only [List.getElem?_cons_zero] at h0
    rw [List.getD_eq_getElem?_getD, ← h0]
    rfl
  · rw [← List.tail_drop, h]
    rfl

/-- The boolean pieces of a failed marker test. -/
lemma lineMarker_false_parts {line : List Char} {rest : List (List Char)}
    (h : lineMarker line rest = false) :
    (onWroteLine (pyStrip line) || origMsgLine (pyStrip line)
        || separLine (pyStrip line)) = false ∧
    ∀ next r2, rest = next :: r2 →
      (fromHeaderLine (pyStrip line) && outlookHeaderNext (pyStrip next))
        = false := by
  unfold lineMarker at h
  simp only [Bool.or_eq_false_iff] at h
  obtain ⟨⟨⟨h1, h2⟩, h3⟩, h4⟩ := h
  refine ⟨by rw [h1, h2, h3]; rfl, ?_⟩
  intro next r2 hr
  subst hr
  simpa using h4

/-- Assembling a failed marker test from its pieces. -/
lemma lineMarker_false_intro {line : List Char} {rest : List (List Char)}
    (h3 : (onWroteLine (pyStrip line) || origMsgLine (pyStrip line)
        || separLine (pyStrip line)) = false)
    (hfrom : ∀ next r2, rest = next :: r2 →
      (fromHeaderLine (pyStrip line) && outlookHeaderNext (pyStrip next))
        = false) :
    lineMarker line rest = false := by
  cases rest with
  | nil =>
      show (onWroteLine (pyStrip line) || origMsgLine (pyStrip line)
        || separLine (pyStrip line)
        || (fromHeaderLine (pyStrip line) && false)) = false
      rw [Bool.and_false, Bool.or_false]
      exact h3
  | cons next r2 =>
      show (onWroteLine (pyStrip line) || origMsgLine (pyStrip line)
        || separLine (pyStrip line)
        || (fromHeaderLine (pyStrip line)
            && outlookHeaderNext (pyStrip next))) = false
      rw [Bool.or_eq_false_iff]
      exact ⟨h3, hfrom next r2 rfl⟩

/-- A list whose every suffix head fails the marker test has its pass-2 cut
at the very end. -/
lemma pass2Cut_eq_length_of : ∀ (F : List (List Char)),
    (∀ j line r, F.drop j = line :: r → lineMarker line r = false) →
    pass2Cut F = F.length := by
  intro F
  induction F with
  | nil => intro _; rfl
  | cons a F2 ih =>
      intro h
      have h0 : lineMarker a F2 = false := h 0 a F2 rfl
      simp only [pass2Cut, h0, Bool.false_eq_true, if_false, List.length_cons]
      rw [ih (fun j line r hj => h (j + 1) line r (by simpa using hj))]
      omega

/-- Position-wise `pyStrip`-equality between two end-adjusted lists. -/
lemma stripEq_getD : ∀ (M : List (List Char)) (a b a2 b2 : List Char) (j : ℕ),
    pyStrip a = pyStrip a2 → pyStrip b = pyStrip b2 →
    pyStrip ((a :: (M ++ [b])).getD j [])
      = pyStrip ((a2 :: (M ++ [b2])).getD j []) := by
  intro M
  induction M with
  | nil =>
      intro a b a2 b2 j ha hb
      match j with
      | 0 => simpa only [List.getD_cons_zero] using ha
      | 1 => simpa only [List.nil_append, List.getD_cons_succ,
          List.getD_cons_zero] using hb
      | Nat.succ (Nat.succ n) =>
          simp only [List.nil_append, List.getD_cons_succ]
  | cons m M2 ih =>
      intro a b a2 b2 j ha hb
      match j with
      | 0 => simpa only [List.getD_cons_zero] using ha
      | Nat.succ n =>
          simp only [List.cons_append, List.getD_cons_succ]
          exact ih m b m b2 n rfl hb

/-- Marker-freeness transfers along position-wise `pyStrip`-equality. -/
lemma markerFree_transfer (F D : List (List Char))
    (hlen : F.length ≤ D.length)
    (hstrip : ∀ j, j < F.length →
      pyStrip (F.getD j []) = pyStrip (D.getD j []))
    (hM : ∀ j line r, j < F.length → D.drop j = line :: r →
      lineMarker line r = false) :
    ∀ j line r, F.drop j = line :: r → lineMarker line r = false := by
  intro j line r h
  obtain ⟨hj, hget, hdrop⟩ := drop_cons_facts ([] : List Char) h
  have hjD : j < D.length := by omega
  obtain ⟨lineD, rD, hD⟩ : ∃ lineD rD, D.drop j = lineD :: rD := by
    rcases hd : D.drop j with _ | ⟨x, xs⟩
    · exfalso
      have := congrArg List.length hd
      simp only [List.length_drop, List.length_nil] at this
      omega
    · exact ⟨x, xs, rfl⟩
  obtain ⟨hjD2, hgetD, hdropD⟩ := drop_cons_facts ([] : List Char) hD
  obtain ⟨hm3, hmfrom⟩ := lineMarker_false_parts (hM j lineD rD hj hD)
  have hse : pyStrip line = pyStrip lineD := by
    rw [← hget, ← hgetD]
    exact hstrip j hj
  refine lineMarker_false_intro (by rw [hse]; exact hm3) ?_
  intro next r2 hr
  have hj1 : j + 1 < F.length := by
    have := congrArg List.length hdrop
    rw [hr] at this
    simp only [List.length_drop, List.length_cons] at this
    omega
  obtain ⟨nextD, rD2, hD2⟩ : ∃ nextD rD2, D.drop (j + 1) = nextD :: rD2 := by
    rcases hd : D.drop (j + 1) with _ | ⟨x, xs⟩
    · exfalso
      have := congrArg List.length hd
      simp only [List.length_drop, List.length_nil] at this
      omega
    · exact ⟨x, xs, rfl⟩
  obtain ⟨hjD3, hgetD2, _⟩ := drop_cons_facts ([] : List Char) hD2
  have hnext : F.getD (j + 1) [] = next := by
    have := drop_cons_facts ([] : List Char) (hr ▸ hdrop : F.drop (j + 1) = next :: r2)
    exact this.2.1
  have hse2 : pyStrip next = pyStrip nextD := by
    rw [← hnext, ← hgetD2]
    exact hstrip (j + 1) hj1
  rw [hse, hse2]
  exact hmfrom nextD rD2 (by rw [← hdropD, hD2])

/-- Marker-freeness below the cut survives truncation of the line list. -/
lemma markerFree_take {L : List (List Char)} {c : ℕ}
    (hM : ∀ j line r, j < c → L.drop j = line :: r →
      lineMarker line r = false) :
    ∀ j line r, (L.take c).drop j = line :: r → lineMarker line r = false := by
  apply markerFree_transfer (L.take c) L
  · rw [List.length_take]
    exact Nat.min_le_right c L.length
  · intro j hj
    rw [List.length_take] at hj
    rw [List.getD_eq_getElem?_getD, List.getD_eq_getElem?_getD,
      List.getElem?_take_of_lt (by omega)]
  · intro j line r hj hL
    rw [List.length_take] at hj
    exact hM j line r (by omega) hL

/-- The output of the cut-and-clean pipeline holds no quote marker: the
line-level pass-1 search misses on it and its pass-2 cut runs to the end. -/
lemma strip_output_normal (L : List (List Char)) (c' : ℕ) (s : List Char)
    (hs : s = pyStrip (joinNl (L.take c')))
    (hW : ∀ l ∈ L, '\n' ∉ l)
    (hc : c' ≤ L.length)
    (hM : ∀ j line r, j < c' → L.drop j = line :: r →
      lineMarker line r = false)
    (hP : ∀ j, 1 ≤ j → j < c' → p1After (joinNl (L.drop j)) = false)
    (hlast : ∀ A m, L.take c' = A ++ [m] → m.all isSpace = false) :
    s = [] ∨ (minP1 (splitNl s) = none ∧
      pass2Cut (splitNl s) = (splitNl s).length) := by
  obtain ⟨Y, hYdef⟩ : ∃ Y, Y = L.take c' := ⟨_, rfl⟩
  rw [← hYdef] at hs hlast
  have hYlen : Y.length = c' := by
    rw [hYdef, List.length_take]
    omega
  have hYW : ∀ l ∈ Y, '\n' ∉ l :=
    fun l hl => hW l (List.mem_of_mem_take (hYdef ▸ hl))
  have hMY : ∀ j line r, Y.drop j = line :: r → lineMarker line r = false := by
    rw [hYdef]
    exact markerFree_take hM
  have hPY : ∀ i, 1 ≤ i → p1After (joinNl (Y.drop i)) = false := by
    intro i hi
    rcases Nat.lt_or_ge i Y.length with hilen | hilen
    · have hic : i < c' := by omega
      rcases Nat.lt_or_ge c' L.length with hcl | hcl
      · cases hp : p1After (joinNl (Y.drop i))
        · rfl
        · exfalso
          have hjoin := joinNl_drop_take L i c' hic hcl
          have hp2 : p1After (joinNl (L.drop i)) = true := by
            rw [hjoin, ← hYdef]
            refine p1After_append_tail ?_ hp
            refine Bool.or_eq_true_iff.mpr (Or.inl ?_)
            rw [contains_nl_iff]
            show '\n' ∈ ('\n' :: joinNl (L.drop c')).takeWhile isSpace
            show '\n' ∈ '\n' :: (joinNl (L.drop c')).takeWhile isSpace
            exact List.mem_cons_self _ _
          have hfalse := hP i hi hic
          rw [hfalse] at hp2
          exact Bool.noConfusion hp2
      · have hYL : Y = L := by
          rw [hYdef, show c' = L.length from by omega, List.take_length]
        rw [hYL]
        exact hP i hi (by omega)
    · rw [List.drop_eq_nil_of_le hilen]
      rfl
  rcases hD : Y.dropWhile (fun l => l.all isSpace) with _ | ⟨d0, D1⟩
  · left
    rw [hs, pyStrip_eq_nil_iff]
    exact joinNl_all_ws
      (fun l hl => by simpa using List.dropWhile_eq_nil_iff.mp hD l hl)
  · have hd0 : d0.all isSpace = false := by
      simpa using dropWhile_head_not (fun l => l.all isSpace) Y hD
    have hYsplit : Y = Y.takeWhile (fun l => l.all isSpace) ++ (d0 :: D1) := by
      rw [← hD, List.takeWhile_append_dropWhile]
    have hleadws : ∀ l ∈ Y.takeWhile (fun l => l.all isSpace),
        l.all isSpace = true := by
      intro l hl
      simpa using List.mem_takeWhile_imp hl
    have hLjoin : pyLStrip (joinNl Y) = pyLStrip (joinNl (d0 :: D1)) := by
      rcases hlead0 : Y.takeWhile (fun l => l.all isSpace) with _ | ⟨l0, lead2⟩
      · conv_lhs => rw [hYsplit, hlead0, List.nil_append]
      · conv_lhs => rw [hYsplit, hlead0]
        rw [joinNl_append (by simp) (by simp)]
        have hwsp : (joinNl (l0 :: lead2) ++ ['\n']).all isSpace = true := by
          rw [List.all_append]
          refine Bool.and_eq_true_iff.mpr ⟨?_, by decide⟩
          exact joinNl_all_ws (fun l hl => hleadws l (by rw [hlead0]; exact hl))
        have e1 : joinNl (l0 :: lead2) ++ '\n' :: joinNl (d0 :: D1)
            = (joinNl (l0 :: lead2) ++ ['\n']) ++ joinNl (d0 :: D1) := by
          simp
        rw [e1, pyLStrip_append_all _ hwsp]
    have hYdrop : ∀ j,
        Y.drop ((Y.takeWhile (fun l => l.all isSpace)).length + j)
          = (d0 :: D1).drop j := by
      intro j
      obtain ⟨n, hn⟩ :
          ∃ n, (Y.takeWhile (fun l => l.all isSpace)).length = n := ⟨_, rfl⟩
      rw [hn]
      conv_lhs => rw [hYsplit]
      rw [List.drop_append_eq_append_drop,
        List.drop_eq_nil_of_le (by omega), List.nil_append]
      congr 1
      omega
    by_cases hD10 : D1 = []
    · subst hD10
      have hs2 : s = pyStrip d0 := by
        rw [hs]
        show pyLStrip (pyRStrip (joinNl Y)) = pyStrip d0
        rw [pyStrip_comm, hLjoin, joinNl_single, ← pyStrip_comm]
        rfl
      have hd0L : d0 ∈ Y := by
        rw [hYsplit]
        exact List.mem_append.mpr (Or.inr (List.mem_cons_self _ _))
      have hsnl : '\n' ∉ s := by
        rw [hs2]
        exact nl_not_mem_pyStrip (hYW d0 hd0L)
      have hsplit1 : splitNl s = [s] := by
        have h1 : ∀ l ∈ [s], '\n' ∉ l := by
          intro l hl
          simp only [List.mem_singleton] at hl
          subst hl
          exact hsnl
        have h2 := splitNl_joinNl h1 (by simp)
        rw [joinNl_single] at h2
        exact h2
      right
      rw [hsplit1]
      refine ⟨rfl, ?_⟩
      apply pass2Cut_eq_length_of
      apply markerFree_transfer [s] [d0] (by simp)
      · intro j hj
        simp only [List.length_singleton] at hj
        have hj0 : j = 0 := by omega
        subst hj0
        simp only [List.getD_cons_zero]
        rw [hs2, pyStrip_idem]
      · intro j line r hj hd
        simp only [List.length_singleton] at hj
        have hj0 : j = 0 := by omega
        subst hj0
        rw [show ([d0] : List (List Char)).drop 0 = [d0].drop 0 from rfl,
          ← show Y.drop ((Y.takeWhile (fun l => l.all isSpace)).length + 0)
            = ([d0] : List (List Char)).drop 0 from hYdrop 0] at hd
        exact hMY _ line r hd
    · obtain ⟨M, mlast, rfl⟩ : ∃ M mlast, D1 = M ++ [mlast] :=
        ⟨D1.dropLast, D1.getLast hD10,
          (List.dropLast_append_getLast hD10).symm⟩
      have hmlast : mlast.all isSpace = false := by
        refine hlast (Y.takeWhile (fun l => l.all isSpace) ++ d0 :: M) mlast ?_
        conv_lhs => rw [hYsplit]
        simp
      have hrne : pyRStrip mlast ≠ [] := by
        intro hcon
        rw [pyRStrip_eq_nil_iff.mp hcon] at hmlast
        simp at hmlast
      have hlne : pyLStrip d0 ≠ [] := by
        intro hcon
        rw [pyLStrip_eq_nil_iff.mp hcon] at hd0
        simp at hd0
      have hs2 : s = joinNl ((pyLStrip d0 :: M) ++ [pyRStrip mlast]) := by
        rw [hs]
        show pyLStrip (pyRStrip (joinNl Y)) = _
        rw [pyStrip_comm, hLjoin]
        have hX : (M ++ [mlast] : List (List Char)) ≠ [] := by simp
        have h1 : pyLStrip (joinNl (d0 :: (M ++ [mlast])))
            = joinNl (pyLStrip d0 :: (M ++ [mlast])) := by
          rw [joinNl_cons _ hX, joinNl_cons _ hX,
            pyLStrip_append_of_ne _ hlne]
        rw [h1,
          show pyLStrip d0 :: (M ++ [mlast])
            = (pyLStrip d0 :: M) ++ [mlast] from by simp,
          pyRStrip_joinNl_last _ _ hrne]
      have hmemY : ∀ l ∈ d0 :: (M ++ [mlast]), l ∈ Y := by
        intro l hl
        rw [hYsplit]
        exact List.mem_append.mpr (Or.inr hl)
      have hFW : ∀ l ∈ (pyLStrip d0 :: M) ++ [pyRStrip mlast], '\n' ∉ l := by
        intro l hl
        rcases List.mem_append.mp hl with h1 | h1
        · rcases List.mem_cons.mp h1 with h2 | h2
          · subst h2
            exact nl_not_mem_pyLStrip
              (hYW d0 (hmemY d0 (List.mem_cons_self _ _)))
          · exact hYW l (hmemY l (List.mem_cons.mpr
              (Or.inr (List.mem_append.mpr (Or.inl h2)))))
        · simp only [List.mem_singleton] at h1
          subst h1
          exact nl_not_mem_pyRStrip
            (hYW mlast (hmemY mlast (List.mem_cons.mpr
              (Or.inr (List.mem_append.mpr (Or.inr (List.mem_singleton.mpr
                rfl)))))))
      have hsplitF : splitNl s
          = (pyLStrip d0 :: M) ++ [pyRStrip mlast] := by
        rw [hs2]
        exact splitNl_joinNl hFW (by simp)
      right
      rw [hsplitF]
      constructor
      · refine minP1_eq_none ?_
        intro j hj1
        rcases Nat.lt_or_ge j ((pyLStrip d0 :: M) ++ [pyRStrip mlast]).length
          with hjlen | hjlen
        · obtain ⟨j2, rfl⟩ : ∃ j2, j = j2 + 1 := ⟨j - 1, by omega⟩
          have hj2M : j2 ≤ M.length := by
            simp only [List.length_append, List.length_cons,
              List.length_nil] at hjlen
            omega
          have hFdrop : ((pyLStrip d0 :: M) ++ [pyRStrip mlast]).drop (j2 + 1)
              = M.drop j2 ++ [pyRStrip mlast] := by
            rw [List.cons_append, List.drop_succ_cons,
              List.drop_append_eq_append_drop,
              show j2 - M.length = 0 from by omega, List.drop_zero]
          have hDdrop : (d0 :: (M ++ [mlast])).drop (j2 + 1)
              = M.drop j2 ++ [mlast] := by
            rw [List.drop_succ_cons, List.drop_append_eq_append_drop,
              show j2 - M.length = 0 from by omega, List.drop_zero]
          cases hp : p1After (joinNl
              (((pyLStrip d0 :: M) ++ [pyRStrip mlast]).drop (j2 + 1)))
          · rfl
          · exfalso
            rw [hFdrop, (pyRStrip_joinNl_last _ _ hrne).symm] at hp
            have hp2 : p1After (joinNl (M.drop j2 ++ [mlast])) = true :=
              p1After_of_pyRStrip hp
            rw [← hDdrop, ← hYdrop (j2 + 1)] at hp2
            have hfalse := hPY
              ((Y.takeWhile (fun l => l.all isSpace)).length + (j2 + 1))
              (by omega)
            rw [hfalse] at hp2
            exact Bool.noConfusion hp2
        · rw [List.drop_eq_nil_of_le hjlen]
          rfl
      · apply pass2Cut_eq_length_of
        apply markerFree_transfer ((pyLStrip d0 :: M) ++ [pyRStrip mlast])
          (d0 :: (M ++ [mlast])) (by simp)
        · intro j hj
          have := stripEq_getD M (pyLStrip d0) (pyRStrip mlast) d0 mlast j
            (pyStrip_pyLStrip d0) (pyStrip_pyRStrip mlast)
          simpa using this
        · intro j line r hj hd
          rw [← hYdrop j] at hd
          exact hMY _ line r hd

/-- The last line remaining after the trailing-blank pop is not blank. -/
lemma dropTrailingBlankL_last (Z A : List (List Char)) (m : List Char)
    (h : dropTrailingBlankL Z = A ++ [m]) : (pyStrip m).isEmpty = false := by
  have h2 : Z.reverse.dropWhile (fun l => (pyStrip l).isEmpty)
      = m :: A.reverse := by
    have h3 := congrArg List.reverse h
    rw [dropTrailingBlankL, List.reverse_reverse, List.reverse_append] at h3
    simpa using h3
  simpa using dropWhile_head_not (fun l => (pyStrip l).isEmpty) Z.reverse h2

/-- Alternate form of `pyRStrip` length monotonicity. -/
lemma pyRStrip_length_le (l : List Char) : (pyRStrip l).length ≤ l.length := by
  have := (@List.dropWhile_suffix _ l.reverse isSpace).length_le
  simpa [pyRStrip] using this

/-- `cleanLines` is the identity on the line split of a non-empty stripped
string whose last line does not strip to a quote. -/
lemma cleanLines_splitNl_id {s : List Char} (hne : s ≠ [])
    (hstripped : pyStrip s = s)
    (hq : ((pyStrip ((splitNl s).getLastD [])).head? == some '>') = false) :
    cleanLines (splitNl s) = s := by
  obtain ⟨A, alast, hA⟩ : ∃ A alast, splitNl s = A ++ [alast] :=
    ⟨(splitNl s).dropLast, (splitNl s).getLast (splitNl_ne_nil s),
      (List.dropLast_append_getLast _).symm⟩
  have hlastD : (splitNl s).getLastD [] = alast := by
    rw [List.getLastD_eq_getLast?, hA, List.getLast?_concat]
    rfl
  have hq2 : ((pyStrip alast).head? == some '>') = false := by
    rw [← hlastD]
    exact hq
  have hrs : pyRStrip s = s := by
    conv_lhs => rw [← hstripped]
    show pyRStrip (pyLStrip (pyRStrip s)) = s
    rw [← pyStrip_comm (pyRStrip s), pyRStrip_idem]
    exact hstripped
  have halast : (pyStrip alast).isEmpty = false := by
    cases hh : (pyStrip alast).isEmpty
    · rfl
    · exfalso
      have hws : alast.all isSpace = true := by
        rw [← pyStrip_eq_nil_iff]
        exact List.isEmpty_iff.mp hh
      cases A with
      | nil =>
          have hsal : s = alast := by
            conv_lhs => rw [← joinNl_splitNl s]
            rw [hA, List.nil_append, joinNl_single]
          rw [hsal] at hrs hne
          rw [pyRStrip_eq_nil_iff.mpr hws] at hrs
          exact hne hrs.symm
      | cons a A2 =>
          have hseq : s = joinNl (a :: A2) ++ '\n' :: alast := by
            conv_lhs => rw [← joinNl_splitNl s]
            rw [hA, joinNl_append (by simp) (by simp), joinNl_single]
          have hwsc : ('\n' :: alast).all isSpace = true := by
            rw [List.all_cons]
            exact Bool.and_eq_true_iff.mpr ⟨by decide, hws⟩
          have h2 : pyRStrip s = pyRStrip (joinNl (a :: A2)) := by
            rw [hseq,
              show joinNl (a :: A2) ++ '\n' :: alast
                = joinNl (a :: A2) ++ ('\n' :: alast) from rfl,
              pyRStrip_append_all _ hwsc]
          have hlen1 := congrArg List.length (hrs.symm.trans h2)
          have hlen2 := pyRStrip_length_le (joinNl (a :: A2))
          have hlen3 := congrArg List.length hseq
          simp only [List.length_append, List.length_cons] at hlen1 hlen3
          omega
  unfold cleanLines
  rw [hA, dropTrailingQuoted_append, if_neg (by simp [hq2]),
    dropTrailingBlankL_append, if_neg (by simp [halast]), ← hA,
    joinNl_splitNl, hstripped]

/-- The output of `strip_email_quotes` is empty or marker-free: the pass-1
search misses on it and its pass-2 cut keeps every line. -/
lemma strip_output_nf (t : List Char) :
    strip_email_quotes t = [] ∨
      (minP1 (splitNl (strip_email_quotes t)) = none ∧
        pass2Cut (splitNl (strip_email_quotes t))
          = (splitNl (strip_email_quotes t)).length) := by
  by_cases hemp : t.isEmpty = true
  · left
    unfold strip_email_quotes
    rw [if_pos hemp]
  · have hemp' : t.isEmpty = false := Bool.eq_false_iff.mpr hemp
    have heq : strip_email_quotes t
        = cleanLines ((splitNl t).take (specCutAux false (splitNl t))) := by
      rw [strip_eq_spec t, strip_spec_eq hemp']
    obtain ⟨q, hqle, hYq⟩ := dropTrailing_take
      ((splitNl t).take (specCutAux false (splitNl t)))
    have hclen := specCutAux_le_length (splitNl t) false
    apply strip_output_normal (splitNl t)
      (min q (specCutAux false (splitNl t)))
    · rw [heq]
      unfold cleanLines
      rw [hYq, List.take_take]
    · exact nl_not_mem_splitNl t
    · exact le_trans (Nat.min_le_right _ _) hclen
    · intro j line r hj hdrop
      exact (specCutAux_min (splitNl t) false j
        (lt_of_lt_of_le hj (Nat.min_le_right _ _))).1 line r hdrop
    · intro j hj1 hj2
      exact (specCutAux_min (splitNl t) false j
        (lt_of_lt_of_le hj2 (Nat.min_le_right _ _))).2 (Or.inl hj1)
    · intro A m hAm
      have h1 : dropTrailingBlankL (dropTrailingQuoted
          ((splitNl t).take (specCutAux false (splitNl t)))) = A ++ [m] := by
        rw [hYq, List.take_take]
        exact hAm
      have h2 := dropTrailingBlankL_last _ A m h1
      cases hws : m.all isSpace
      · rfl
      · exfalso
        rw [show pyStrip m = [] from pyStrip_eq_nil_iff.mpr hws] at h2
        simp at h2

/-- **C10** (corrected).  A second application of `strip_email_quotes` only
re-runs the trailing clean-up on the first output: it removes trailing
`'>'`-quoted lines and then trailing blank lines, and nothing else; in
particular it is the identity whenever the first output's last line does not
strip to a `'>'`-quoted line. -/
theorem strip_email_quotes_idem_amended :
    ∀ t : List Char,
      strip_email_quotes (strip_email_quotes t)
        = cleanLines (splitNl (strip_email_quotes t)) ∧
      (((pyStrip ((splitNl (strip_email_quotes t)).getLastD [])).head?
          == some '>') = false →
        strip_email_quotes (strip_email_quotes t) = strip_email_quotes t) := by
  intro t
  by_cases hz : strip_email_quotes t = []
  · rw [hz]
    constructor
    · decide
    · intro _
      rfl
  · rcases strip_output_nf t with hz2 | ⟨hminN, hpassN⟩
    · exact absurd hz2 hz
    · have hempS : (strip_email_quotes t).isEmpty = false := by
        rw [List.isEmpty_eq_false]
        exact hz
      have hp1none : p1Search (strip_email_quotes t) = none := by
        rcases p1_corr (splitNl (strip_email_quotes t))
            (nl_not_mem_splitNl _) with ⟨h1, _⟩ | ⟨i, k, hi, hk, _, _, _⟩
        · rw [joinNl_splitNl] at h1
          exact h1
        · rw [hminN] at hk
          exact absurd hk (by simp)
      have h1 : strip_email_quotes (strip_email_quotes t)
          = cleanLines (splitNl (strip_email_quotes t)) := by
        rw [strip_eq_of_p1_none hempS hp1none, hpassN, List.take_length]
      refine ⟨h1, ?_⟩
      intro hq
      rw [h1]
      refine cleanLines_splitNl_id hz ?_ hq
      by_cases hemp : t.isEmpty = true
      · exfalso
        apply hz
        unfold strip_email_quotes
        rw [if_pos hemp]
      · have heq : strip_email_quotes t
            = cleanLines ((splitNl t).take (specCutAux false (splitNl t))) := by
          rw [strip_eq_spec t, strip_spec_eq (Bool.eq_false_iff.mpr hemp)]
        rw [heq]
        exact pyStrip_idem _

/-- **C10** witness: on plain text the second application changes nothing. -/
theorem strip_email_quotes_idem_amended_witness :
    ((pyStrip ((splitNl (strip_email_quotes ('h' :: 'i' :: []))).getLastD
        [])).head? == some '>') = false ∧
      strip_email_quotes (strip_email_quotes ('h' :: 'i' :: []))
        = strip_email_quotes ('h' :: 'i' :: []) :=
  ⟨by decide, (strip_email_quotes_idem_amended ('h' :: 'i' :: [])).2
    (by decide)⟩

/-- **C10** counterexample to the literal claim: on `">\n"` the first pass
keeps the quoted line `">"` (the blank pop exposes it only after the quote
pop already ran), and the second application removes it. -/
theorem strip_email_quotes_idem_counterexample :
    strip_email_quotes (strip_email_quotes ('>' :: '\n' :: []))
      ≠ strip_email_quotes ('>' :: '\n' :: []) := by
  decide

end AutoAssist
